import Mathlib

set_option maxRecDepth 4000

/-!
Verification development for the cocktail-advisor retrieval pipeline.

Python strings are modelled as `List Char`; the `re` module's behaviour on the
regular expressions appearing in the code is modelled by a small backtracking
matcher (`matchRE`) that returns the candidate matches in Python's
backtracking preference order, so that `search`, `findall`, `split` and `sub`
can be derived from it.  Sets of strings (Python `set`) are modelled as
duplicate-free lists with membership-guarded insertion, DataFrames as lists of
records, and the external collaborators (LLM, embedding index, clock, random
sampler) as fields of an explicit environment.
-/

namespace Cocktail

abbrev Str := List Char

/-- The characters Python treats as whitespace for `str.strip` and `\s` (ASCII range). -/
def isSpaceChar (c : Char) : Bool :=
  c.toNat = 32 || c.toNat = 9 || c.toNat = 10 || c.toNat = 13 || c.toNat = 11 || c.toNat = 12

/-- ASCII lowercasing of one character, as `str.lower` acts on the data in this repo. -/
def lowerChar (c : Char) : Char :=
  if 65 ≤ c.toNat ∧ c.toNat ≤ 90 then Char.ofNat (c.toNat + 32) else c

/-- Python `str.lower`. -/
def pyLower (s : Str) : Str := s.map lowerChar

/-- Python `str.strip`. -/
def pyStrip (s : Str) : Str :=
  ((s.dropWhile isSpaceChar).reverse.dropWhile isSpaceChar).reverse

/-- Python `needle in hay` substring containment test. -/
def strContains (hay needle : Str) : Bool :=
  if needle.isPrefixOf hay then true
  else
    match hay with
    | [] => false
    | _ :: t => strContains t needle

/-- Split a string at every character satisfying `p`, keeping empty pieces
(the behaviour of `re.split` on a single character class). -/
def splitOnPred (p : Char → Bool) : Str → List Str
  | [] => [[]]
  | c :: t =>
    if p c then [] :: splitOnPred p t
    else
      match splitOnPred p t with
      | [] => [[c]]
      | h :: r => (c :: h) :: r

/-- `", ".join`-style joining. -/
def joinSep (sep : Str) : List Str → Str
  | [] => []
  | [x] => x
  | x :: r => x ++ sep ++ joinSep sep r

/-- Decimal rendering of a natural number (for f-string interpolation). -/
def natToStr (n : Nat) : Str := (toString n).toList

/-- Digits-to-number conversion for `int(match.group(1))`. -/
def strToNat (s : Str) : Nat :=
  s.foldl (fun acc c => acc * 10 + (c.toNat - 48)) 0

/-!  ## A small model of the `re` patterns used by the repository.

Every quantifier in the repository's patterns ranges over a character class
(including `.`), so the syntax below — sequencing, ordered alternation,
greedy option, greedy/lazy class repetition and a single capture group —
covers all of them.  `matchRE e s` returns the list of possible
(suffix-after-match, captured-text) outcomes in exactly the order a
backtracking engine would try them, so the head of the list is the match
Python's `re` reports. -/

inductive RE where
  | eps : RE
  | cls (p : Char → Bool) : RE
  | seq (a b : RE) : RE
  | alt (a b : RE) : RE
  | opt (a : RE) : RE
  | starG (p : Char → Bool) : RE
  | plusG (p : Char → Bool) : RE
  | plusL (p : Char → Bool) : RE
  | grp (a : RE) : RE

/-- Suffixes of `s` obtained by consuming `i` leading `p`-characters, for `i`
descending from the maximal run length to `lo` (greedy repetition order). -/
def greedyDrops (p : Char → Bool) (lo : Nat) (s : Str) : List Str :=
  let n := (s.takeWhile p).length
  (List.range (n + 1)).reverse.filterMap
    (fun i => if lo ≤ i then some (s.drop i) else none)

/-- Same suffixes in ascending order (lazy repetition order), starting at 1. -/
def lazyDrops (p : Char → Bool) (s : Str) : List Str :=
  let n := (s.takeWhile p).length
  (List.range (n + 1)).filterMap
    (fun i => if 1 ≤ i then some (s.drop i) else none)

/-- All candidate matches of `e` against a prefix of `s`, as
(remaining suffix, captured group) pairs in backtracking preference order. -/
def matchRE : RE → Str → List (Str × Option Str)
  | .eps, s => [(s, none)]
  | .cls p, s =>
    match s with
    | [] => []
    | c :: t => if p c then [(t, none)] else []
  | .seq a b, s =>
    (matchRE a s).flatMap
      (fun r1 => (matchRE b r1.1).map (fun r2 => (r2.1, r2.2 <|> r1.2)))
  | .alt a b, s => matchRE a s ++ matchRE b s
  | .opt a, s => matchRE a s ++ [(s, none)]
  | .starG p, s => (greedyDrops p 0 s).map (fun t => (t, none))
  | .plusG p, s => (greedyDrops p 1 s).map (fun t => (t, none))
  | .plusL p, s => (lazyDrops p s).map (fun t => (t, none))
  | .grp a, s =>
    (matchRE a s).map (fun r => (r.1, some (s.take (s.length - r.1.length))))

/-- `re.search`: the first match scanning start positions left to right;
returns (suffix after the match, captured group). -/
def searchRE (e : RE) : Str → Option (Str × Option Str)
  | [] => (matchRE e []).head?
  | c :: t =>
    match (matchRE e (c :: t)).head? with
    | some r => some r
    | none => searchRE e t

/-- `re.findall` (patterns with one capture group): all non-overlapping
matches' captures, scanning left to right.  Fuelled recursion; every pattern
passed to it consumes at least one character per match. -/
def findAllAux (e : RE) : Nat → Str → List Str
  | 0, _ => []
  | fuel + 1, s =>
    match searchRE e s with
    | none => []
    | some (rest, cap) => cap.getD [] :: findAllAux e fuel rest

def findAll (e : RE) (s : Str) : List Str := findAllAux e (s.length + 1) s

/-- `re.split` by pattern `e` (which never matches the empty string here). -/
def splitREAux (e : RE) : Nat → Str → Str → List Str
  | 0, acc, s => [acc ++ s]
  | fuel + 1, acc, s =>
    match (matchRE e s).head? with
    | some (rest, _) => acc :: splitREAux e fuel [] rest
    | none =>
      match s with
      | [] => [acc]
      | c :: t => splitREAux e fuel (acc ++ [c]) t

def splitRE (e : RE) (s : Str) : List Str := splitREAux e (s.length + 1) [] s

/-- `re.sub(e, "", s)` removing every non-overlapping match, scanning left to
right (used for the parenthetical-note pattern). -/
def subAllAux (e : RE) : Nat → Str → Str
  | 0, s => s
  | fuel + 1, s =>
    match (matchRE e s).head? with
    | some (rest, _) => subAllAux e fuel rest
    | none =>
      match s with
      | [] => []
      | c :: t => c :: subAllAux e fuel t

/-- `re.sub` for the `^`-anchored quantity patterns: at most one match, at the
start of the string. -/
def subAnchored (e : RE) (s : Str) : Str :=
  match (matchRE e s).head? with
  | some (rest, _) => rest
  | none => s

/-! Pattern-building helpers. -/

/-- Case-sensitive literal character. -/
def chE (c : Char) : RE := .cls (fun x => x = c)

/-- Case-insensitive literal character (for patterns compiled with `re.IGNORECASE`). -/
def chI (c : Char) : RE := .cls (fun x => lowerChar x = lowerChar c)

def lit (w : Str) : RE := w.foldr (fun c e => .seq (chE c) e) .eps

def litI (w : Str) : RE := w.foldr (fun c e => .seq (chI c) e) .eps

def alts : List RE → RE
  | [] => .cls (fun _ => false)
  | [e] => e
  | e :: r => .alt e (alts r)

def seqs : List RE → RE
  | [] => .eps
  | [e] => e
  | e :: r => .seq e (seqs r)

/-- `.` (any character except a newline). -/
def dotP (c : Char) : Bool := c ≠ '\n'

def isDigitChar (c : Char) : Bool := c.isDigit

def str (s : String) : Str := s.toList

/-! ## CocktailDataProcessor (`app/utils/data_processor.py`) -/

/-- `^\d+\s*(?:oz|ml|...|sprigs?|slices?|wedges?)\s+(?:of\s+)?`, `re.IGNORECASE`. -/
def qty1RE : RE :=
  seqs [ .plusG isDigitChar, .starG isSpaceChar,
    alts [ litI (str "oz"), litI (str "ml"), litI (str "cl"), litI (str "dash"),
      litI (str "dashes"), litI (str "teaspoon"), litI (str "tablespoon"),
      litI (str "tsp"), litI (str "tbsp"), litI (str "shot"), litI (str "shots"),
      litI (str "part"), litI (str "parts"), litI (str "pinch"), litI (str "drops"),
      litI (str "splash"),
      seqs [litI (str "sprig"), .opt (chI 's')],
      seqs [litI (str "slice"), .opt (chI 's')],
      seqs [litI (str "wedge"), .opt (chI 's')] ],
    .plusG isSpaceChar, .opt (seqs [litI (str "of"), .plusG isSpaceChar]) ]

/-- `^\d+[/\d\s.]*\s+(?:of\s+)?` (case-sensitive). -/
def qty2RE : RE :=
  seqs [ .plusG isDigitChar,
    .starG (fun c => c = '/' || c.isDigit || isSpaceChar c || c = '.'),
    .plusG isSpaceChar, .opt (seqs [lit (str "of"), .plusG isSpaceChar]) ]

/-- `\([^)]*\)` — a parenthetical note. -/
def parenRE : RE := seqs [chE '(', .starG (fun c => c ≠ ')'), chE ')']

/-- Removes every parenthetical note: `re.sub(r'\([^)]*\)', '', s)`. -/
def removeParens (s : Str) : Str := subAllAux parenRE (s.length + 1) s

/-- Is the character one of the `[,;\n]` ingredient delimiters? -/
def isDelim (c : Char) : Bool := c = ',' || c = ';' || c = '\n'

/-- `CocktailDataProcessor._extract_ingredients`: split the raw ingredient text
on `,`/`;`/newline, strip each piece, strip a leading quantity/measurement
(two `re.sub` passes), strip parenthetical notes, strip again, keep the
non-empty results lowercased. -/
def extract_ingredients (ingredients_text : Str) : List Str :=
  if ingredients_text = [] then []
  else
    (splitOnPred isDelim ingredients_text).flatMap (fun piece =>
      let ing1 := pyStrip piece
      if ing1 = [] then []
      else
        let ing2 := subAnchored qty1RE ing1
        let ing3 := subAnchored qty2RE ing2
        let ing4 := removeParens ing3
        let ing5 := pyStrip ing4
        if ing5 = [] then [] else [pyLower ing5])

/-- One row of the cleaned cocktail DataFrame. -/
structure CocktailRecord where
  name : Str
  ingredients : Str
  garnish : Str
  preparation : Str
  glass : Str
  is_alcoholic : Bool
  ingredients_list : List Str
deriving DecidableEq, Repr

/-- The keyword set whose presence in the raw ingredient text marks a record
non-alcoholic (`_clean_data`). -/
def nonAlcoholicKeywords : List Str :=
  [str "non-alcoholic", str "non alcoholic", str "alcohol-free", str "alcohol free",
   str "virgin"]

/-- Build a cleaned record from raw column values, deriving the alcoholic flag
and the normalized ingredient token list as `_clean_data` does. -/
def mkRecord (name ingredients garnish preparation glass : Str) : CocktailRecord :=
  { name := name, ingredients := ingredients, garnish := garnish,
    preparation := preparation, glass := glass,
    is_alcoholic := !(nonAlcoholicKeywords.any (fun k => strContains (pyLower ingredients) k)),
    ingredients_list := extract_ingredients ingredients }

/-- `get_cocktails_containing`: all records some of whose normalized tokens
contain the lowercased query ingredient as a substring. -/
def get_cocktails_containing (corpus : List CocktailRecord) (ingredient : Str) :
    List CocktailRecord :=
  let i := pyLower ingredient
  corpus.filter (fun r => r.ingredients_list.any (fun ing => strContains ing i))

/-- `get_non_alcoholic_cocktails`. -/
def get_non_alcoholic_cocktails (corpus : List CocktailRecord) : List CocktailRecord :=
  corpus.filter (fun r => !r.is_alcoholic)

/-- `get_cocktail_by_name` with the fallback simplified to a literal substring
test.  On names whose lowercased form is free of regex metacharacters this
agrees with the code (see `get_cocktail_by_name` below and the lemma
`searchRE_litI_isSome`); it is kept under this name because the orchestrator
paths (`process_cocktail_query`, `get_similar_cocktails`) are exercised only
at such names in this development. -/
def get_cocktail_by_name_substring (corpus : List CocktailRecord) (name : Str) :
    Option CocktailRecord :=
  let n := pyLower name
  let result := corpus.filter (fun r => pyLower r.name = n)
  let result2 :=
    if result = [] then corpus.filter (fun r => strContains (pyLower r.name) n)
    else result
  result2.head?

/-- The metacharacters of Python regular-expression syntax (outside character
classes). -/
def pyRegexMeta (c : Char) : Bool :=
  c = '.' || c = '^' || c = '$' || c = '*' || c = '+' || c = '?' ||
  c = '(' || c = ')' || c = '[' || c = ']' || c = '|' ||
  c = Char.ofNat 92 || c = Char.ofNat 123 || c = Char.ofNat 125

/-- Compiler for the fragment of Python regex syntax modelled here: literal
characters (matched case-insensitively, since `case=False` compiles the
pattern with `re.IGNORECASE`) and the any-character metacharacter `.`.
A pattern using any other metacharacter leaves the fragment and yields
`none`: such a pattern either raises `re.error` when compiled (e.g. an
unbalanced `(`) or has regex semantics beyond this model. -/
def parsePyRegex : Str → Option RE
  | [] => some .eps
  | c :: t =>
    if c = '.' then (parsePyRegex t).map (fun e => .seq (.cls dotP) e)
    else if pyRegexMeta c then none
    else (parsePyRegex t).map (fun e => .seq (chI c) e)

/-- `get_cocktail_by_name`: a case-insensitive exact name match first; when
none exists the code runs `str.contains(name, case=False)` on the lowercased
name column, and pandas `Series.str.contains` defaults to `regex=True`, so
the (lowercased) name is interpreted as a case-insensitive regular
expression, not as a literal substring.  The result is the first matching
row in corpus order, `none` when nothing matches, and `.error` when the
pattern leaves the modelled regex fragment — in particular whenever
compiling it would raise `re.error` and propagate as an exception. -/
def get_cocktail_by_name (corpus : List CocktailRecord) (name : Str) :
    Except Unit (Option CocktailRecord) :=
  let n := pyLower name
  let result := corpus.filter (fun r => pyLower r.name = n)
  if result ≠ [] then .ok result.head?
  else
    match parsePyRegex n with
    | none => .error ()
    | some e =>
      .ok ((corpus.filter (fun r => (searchRE e (pyLower r.name)).isSome)).head?)

/-! ## Intent classification (`RAGSystem.identify_query_type`) -/

def apos : Char := Char.ofNat 39

/-- `(.+)` — greedy capture of at least one non-newline character. -/
def capAll : RE := .grp (.plusG dotP)

def ingredient_patterns : List RE :=
  [ seqs [lit (str "cocktail"), .opt (chE 's'), chE ' ',
      alts [lit (str "with"), lit (str "containing"),
        seqs [lit (str "that "), alts [lit (str "has"), lit (str "have")]]],
      chE ' ', capAll],
    seqs [alts [lit (str "list"), lit (str "show"), lit (str "tell me"),
        lit (str "what are")], chE ' ',
      .opt (alts [lit (str "some"), lit (str "the"), lit (str "all")]), chE ' ',
      lit (str "cocktail"), .opt (chE 's'), chE ' ',
      alts [lit (str "with"), lit (str "containing"),
        seqs [lit (str "that "), alts [lit (str "has"), lit (str "have")]]],
      chE ' ', capAll],
    seqs [lit (str "what "), alts [lit (str "cocktails"), lit (str "drinks")],
      chE ' ', alts [lit (str "can I make"), lit (str "have"), lit (str "contain")],
      chE ' ', alts [lit (str "with"), lit (str "using")], chE ' ', capAll] ]

def cocktail_patterns : List RE :=
  [ seqs [alts [lit (str "how"), lit (str "tell me how")], lit (str " to make "),
      alts [lit (str "a"), lit (str "an")], chE ' ', capAll],
    seqs [alts [lit (str "what is"), seqs [lit (str "what"), chE apos, chE 's']],
      chE ' ', alts [lit (str "a"), lit (str "an")], chE ' ', capAll],
    seqs [alts [lit (str "recipe"), lit (str "ingredients")], lit (str " for "),
      alts [lit (str "a"), lit (str "an")], chE ' ', capAll] ]

def recommendation_patterns : List RE :=
  [ seqs [lit (str "recommend "), alts [lit (str "a"), lit (str "some")],
      lit (str " cocktail"), .opt (chE 's')],
    seqs [alts [lit (str "suggest"), lit (str "give me")], chE ' ',
      alts [lit (str "a"), lit (str "some")], lit (str " cocktail"), .opt (chE 's')],
    seqs [lit (str "what cocktail should I "),
      alts [lit (str "make"), lit (str "try"), lit (str "drink")]],
    seqs [lit (str "similar to "), capAll],
    seqs [lit (str "like "), alts [lit (str "a"), lit (str "an")], chE ' ', capAll] ]

def preference_patterns : List RE :=
  [ seqs [alts [lit (str "my"), lit (str "I")], chE ' ',
      alts [lit (str "like"), lit (str "love"), lit (str "prefer"),
        lit (str "favorite"), lit (str "enjoy")]],
    seqs [alts [lit (str "remember"), lit (str "save"), lit (str "store")], chE ' ',
      alts [lit (str "this"), lit (str "these"), lit (str "my")], chE ' ',
      alts [lit (str "preference"), lit (str "ingredient"), lit (str "cocktail")]],
    seqs [lit (str "what are my "), alts [lit (str "favorite"), lit (str "preferred")],
      chE ' ', alts [lit (str "ingredients"), lit (str "cocktails")]] ]

/-- Does any pattern of the group match somewhere in the string? -/
def matchesAny (ps : List RE) (s : Str) : Bool :=
  ps.any (fun p => (searchRE p s).isSome)

/-- `RAGSystem.identify_query_type`: lowercase the query, then test the four
pattern groups in priority order; the first group with a matching pattern
decides the category, and no match yields `general`. -/
def identify_query_type (query : Str) : String :=
  let query_lower := pyLower query
  if matchesAny ingredient_patterns query_lower then "ingredient_query"
  else if matchesAny cocktail_patterns query_lower then "cocktail_query"
  else if matchesAny recommendation_patterns query_lower then "recommendation"
  else if matchesAny preference_patterns query_lower then "preference"
  else "general"

/-! ## Entity extraction (`extract_ingredients_from_query`,
`extract_cocktail_from_query`) -/

/-- `[^?.,!]+` as a capture. -/
def capClause : RE := .grp (.plusG (fun c => !(c = '?' || c = '.' || c = ',' || c = '!')))

def query_ingredient_patterns : List RE :=
  [ seqs [litI (str "with "), capClause],
    seqs [litI (str "containing "), capClause],
    seqs [litI (str "that "), alts [litI (str "has"), litI (str "have")], chE ' ',
      capClause],
    seqs [litI (str "using "), capClause] ]

/-- `,|\sand\s` — the separator used to split multi-item clauses. -/
def sepAndRE : RE :=
  .alt (chE ',') (seqs [.cls isSpaceChar, lit (str "and"), .cls isSpaceChar])

/-- Search the patterns in order and return the first one's capture group. -/
def firstCapture : List RE → Str → Option Str
  | [], _ => none
  | p :: r, s =>
    match searchRE p s with
    | some (_, cap) => some (cap.getD [])
    | none => firstCapture r s

/-- `RAGSystem.extract_ingredients_from_query`. -/
def extract_ingredients_from_query (query : Str) : List Str :=
  match firstCapture query_ingredient_patterns query with
  | some clause =>
    (splitRE sepAndRE clause).filterMap (fun ing =>
      if pyStrip ing = [] then none else some (pyLower (pyStrip ing)))
  | none => []

def query_cocktail_patterns : List RE :=
  [ seqs [litI (str "how to make "), alts [litI (str "a"), litI (str "an")], chE ' ',
      capClause],
    seqs [alts [litI (str "what is"), seqs [litI (str "what"), chE apos, chI 's']],
      chE ' ', alts [litI (str "a"), litI (str "an")], chE ' ', capClause],
    seqs [litI (str "recipe for "), alts [litI (str "a"), litI (str "an")], chE ' ',
      capClause],
    seqs [litI (str "similar to "), capClause],
    seqs [litI (str "like "), alts [litI (str "a"), litI (str "an")], chE ' ',
      capClause] ]

/-- `RAGSystem.extract_cocktail_from_query`. -/
def extract_cocktail_from_query (query : Str) : Option Str :=
  (firstCapture query_cocktail_patterns query).map pyStrip

/-! ## Preference detection (`UserMemory.detect_favorite_ingredients`,
`detect_favorite_cocktails`), `re.IGNORECASE`, via `re.findall`. -/

/-- `(.+?)` — lazy capture. -/
def capLazy : RE := .grp (.plusL dotP)

/-- `(?: in my (?:drinks|cocktails))?[.!]` — common tail of the ingredient
preference patterns. -/
def ingTail : RE :=
  seqs [.opt (seqs [litI (str " in my "),
      alts [litI (str "drinks"), litI (str "cocktails")]]),
    .cls (fun c => c = '.' || c = '!')]

def favorite_ingredient_patterns : List RE :=
  [ seqs [litI (str "I "), .opt (litI (str "really ")), litI (str "like"),
      .opt (litI (str " to use")), chE ' ', capLazy, ingTail],
    seqs [litI (str "I "), .opt (litI (str "really ")), litI (str "love"),
      .opt (litI (str " to use")), chE ' ', capLazy, ingTail],
    seqs [litI (str "My favorite "),
      alts [litI (str "ingredient"), litI (str "ingredients")], chE ' ',
      alts [litI (str "is"), litI (str "are")], chE ' ', capLazy,
      .cls (fun c => c = '.' || c = '!')],
    seqs [litI (str "I prefer "), .opt (litI (str "to use ")), capLazy, ingTail],
    seqs [litI (str "I enjoy "), .opt (litI (str "using ")), capLazy, ingTail] ]

/-- `(?: cocktail)?[.!]` — common tail of the cocktail preference patterns. -/
def cockTail : RE :=
  seqs [.opt (litI (str " cocktail")), .cls (fun c => c = '.' || c = '!')]

def favorite_cocktail_patterns : List RE :=
  [ seqs [litI (str "I "), .opt (litI (str "really ")), litI (str "like"),
      .opt (litI (str " to drink")), chE ' ', .opt (litI (str "the ")), capLazy,
      cockTail],
    seqs [litI (str "I "), .opt (litI (str "really ")), litI (str "love"),
      .opt (litI (str " to drink")), chE ' ', .opt (litI (str "the ")), capLazy,
      cockTail],
    seqs [litI (str "My favorite "), alts [litI (str "cocktail"), litI (str "drink")],
      litI (str " is "), .opt (litI (str "the ")), capLazy,
      .cls (fun c => c = '.' || c = '!')],
    seqs [litI (str "I prefer "), .opt (litI (str "to drink ")),
      .opt (litI (str "the ")), capLazy, cockTail],
    seqs [litI (str "I enjoy "), .opt (litI (str "drinking ")),
      .opt (litI (str "the ")), capLazy, cockTail] ]

/-- `UserMemory.detect_favorite_ingredients`: every pattern's `findall`
matches, each split on `,|\sand\s`, stripped, lowercased, blanks dropped. -/
def detect_favorite_ingredients (message : Str) : List Str :=
  (favorite_ingredient_patterns.flatMap (fun p => findAll p message)).flatMap
    (fun m => (splitRE sepAndRE m).filterMap (fun ing =>
      if pyStrip ing = [] then none else some (pyLower (pyStrip ing))))

/-- `UserMemory.detect_favorite_cocktails`: same scan, but results are only
stripped (case preserved). -/
def detect_favorite_cocktails (message : Str) : List Str :=
  (favorite_cocktail_patterns.flatMap (fun p => findAll p message)).flatMap
    (fun m => (splitRE sepAndRE m).filterMap (fun c =>
      if pyStrip c = [] then none else some (pyStrip c)))

/-! ## UserMemory (`app/core/memory.py`)

Python `set`s are modelled as duplicate-free lists with membership-guarded
insertion; the profile-store writes (`_save_memory`) are no-ops at this level
of abstraction (§6: best-effort external persistence). -/

structure ConvEntry where
  role : Str
  content : Str
  timestamp : Str
deriving DecidableEq, Repr

structure UserMemory where
  favorite_ingredients : List Str
  favorite_cocktails : List Str
  conversation_history : List ConvEntry
deriving DecidableEq, Repr

def emptyMemory : UserMemory := ⟨[], [], []⟩

/-- `set.add`. -/
def pySetAdd (s : List Str) (x : Str) : List Str := if x ∈ s then s else s ++ [x]

/-- `add_favorite_ingredient`: lowercase, strip, insert. -/
def add_favorite_ingredient (m : UserMemory) (ingredient : Str) : UserMemory :=
  let i := pyStrip (pyLower ingredient)
  { m with favorite_ingredients := pySetAdd m.favorite_ingredients i }

/-- `remove_favorite_ingredient`: lowercase, strip, remove if present;
also returns whether it existed. -/
def remove_favorite_ingredient (m : UserMemory) (ingredient : Str) :
    UserMemory × Bool :=
  let i := pyStrip (pyLower ingredient)
  if i ∈ m.favorite_ingredients then
    ({ m with favorite_ingredients := m.favorite_ingredients.erase i }, true)
  else (m, false)

/-- `add_favorite_cocktail`: strip (case preserved), insert. -/
def add_favorite_cocktail (m : UserMemory) (cocktail : Str) : UserMemory :=
  let c := pyStrip cocktail
  { m with favorite_cocktails := pySetAdd m.favorite_cocktails c }

/-- `remove_favorite_cocktail`. -/
def remove_favorite_cocktail (m : UserMemory) (cocktail : Str) :
    UserMemory × Bool :=
  let c := pyStrip cocktail
  if c ∈ m.favorite_cocktails then
    ({ m with favorite_cocktails := m.favorite_cocktails.erase c }, true)
  else (m, false)

/-- `add_to_conversation_history`: append, then keep only the last 50 entries.
The wall-clock timestamp is passed in explicitly. -/
def add_to_conversation_history (m : UserMemory) (role content timestamp : Str) :
    UserMemory :=
  let h := m.conversation_history ++ [⟨role, content, timestamp⟩]
  { m with conversation_history := if 50 < h.length then h.drop (h.length - 50) else h }

/-- `get_recent_conversation`. -/
def get_recent_conversation (m : UserMemory) (limit : Nat) : List ConvEntry :=
  m.conversation_history.drop (m.conversation_history.length - limit)

/-- The result dictionary of `process_user_message`. -/
structure PrefResult where
  new_favorite_ingredients : List Str
  new_favorite_cocktails : List Str
deriving DecidableEq, Repr

/-- `process_user_message`: detect preferences, add each one that is not yet a
favorite (recording it as newly added), then log the message. -/
def process_user_message (m : UserMemory) (message now : Str) :
    PrefResult × UserMemory :=
  let ingRes := (detect_favorite_ingredients message).foldl
    (fun (acc : List Str × UserMemory) ingredient =>
      if ingredient ∈ acc.2.favorite_ingredients then acc
      else (acc.1 ++ [ingredient], add_favorite_ingredient acc.2 ingredient))
    ([], m)
  let cockRes := (detect_favorite_cocktails message).foldl
    (fun (acc : List Str × UserMemory) cocktail =>
      if cocktail ∈ acc.2.favorite_cocktails then acc
      else (acc.1 ++ [cocktail], add_favorite_cocktail acc.2 cocktail))
    ([], ingRes.2)
  (⟨ingRes.1, cockRes.1⟩, add_to_conversation_history cockRes.2 (str "user") message now)

/-! ## VectorDatabase (`app/core/vectordb.py`), result-assembly model

The FAISS index and the sentence-transformer encoder are external
collaborators; relative to their output — a list of (distance, index) hits
sorted by ascending distance — `search_cocktails` keeps the in-range hits and
converts each distance `d` to the similarity score `1/(1+d)`. -/

/-- The distance-to-similarity conversion `1.0 / (1.0 + distance)`. -/
def simScore (d : ℚ) : ℚ := 1 / (1 + d)

/-- `search_cocktails`, relative to the hit list returned by the index:
for each `(distance, index)` hit whose index is within the metadata list,
return the metadata entry together with its similarity score. -/
def search_cocktails_hits {α : Type} (cocktail_data : List α) (hits : List (ℚ × Nat)) :
    List (α × ℚ) :=
  hits.filterMap (fun h => (cocktail_data.get? h.2).map (fun m => (m, simScore h.1)))

/-- One metadata entry of the cocktail vector index
(`get_cocktails_for_embedding`). -/
structure VMeta where
  name : Str
  ingredients : Str
  garnish : Str
  preparation : Str
  glass : Str
  content : Str
  is_alcoholic : Bool
deriving DecidableEq, Repr

/-! ## RAGSystem (`app/core/rag.py`)

The generation collaborator, the embedding search, the random sampler and the
wall clock are fields of an explicit environment. -/

structure Env where
  /-- `llm.generate_response(query, system_prompt)`. -/
  llm : Str → Str → Str
  /-- `vectordb.search_cocktails(query, top_k)` (already metadata + score). -/
  vsearch : Str → Nat → List VMeta
  /-- `cocktails_df.sample(5)`. -/
  samples : List CocktailRecord
  /-- `datetime.now().isoformat()`. -/
  now : Str
  /-- the data processor's cleaned DataFrame. -/
  corpus : List CocktailRecord

/-- A single-quote character, for the apostrophes in the response texts. -/
def sq : Str := [apos]

/-- `get_cocktails_with_ingredients`: pseudo-query over the ingredient list. -/
def get_cocktails_with_ingredients (env : Env) (ingredients : List Str)
    (top_k : Nat) : List VMeta :=
  env.vsearch (str "Cocktail with ingredients: " ++ joinSep (str ", ") ingredients) top_k

/-- `get_similar_cocktails`: look the record up by name and delegate to the
pseudo-query search. -/
def get_similar_cocktails (env : Env) (cocktail_name : Str) (top_k : Nat) :
    List VMeta :=
  match get_cocktail_by_name_substring env.corpus cocktail_name with
  | none => []
  | some c =>
    env.vsearch (str "Cocktail with ingredients: " ++ joinSep (str ", ") c.ingredients_list)
      top_k

/-- The *intended* value of `result_df.merge(df, how="inner")`: rows of the
left frame paired with every equal row of the right frame.  The real call
never produces this value on non-trivial inputs — see `pd_merge_inner` for
what pandas actually does — so this definition serves only as orchestrator
plumbing for `process_ingredient_query`, whose downstream response logic is
studied on the (unreachable on multi-ingredient queries) value level. -/
def mergeInner (a b : List CocktailRecord) : List CocktailRecord :=
  a.flatMap (fun r => (b.filter (fun x => x = r)).map (fun _ => r))

/-- `result_df.merge(df, how="inner")` as actually executed: with `on=None`
the join keys are all columns common to both frames, which includes the
list-valued `ingredients_list` column; pandas factorizes (hashes) every key
value of both frames before joining, and `hash` of a Python list raises
`TypeError: unhashable type: 'list'`, so the merge raises as soon as either
frame has a row — only the merge of two empty frames returns (empty). -/
def pd_merge_inner (a b : List CocktailRecord) : Except Unit (List CocktailRecord) :=
  if a = [] ∧ b = [] then .ok [] else .error ()

/-- The `result_df` of the ingredient branch on the *intended* value level
(see `mergeInner`): `none` when no ingredients could be extracted; otherwise
the per-ingredient containment results — each filtered to non-alcoholic
records when the query asks for that — intersected by repeated inner merge.
The faithful version tracking the merge's failure is
`ingredient_query_results_pd`. -/
def ingredient_query_results (corpus : List CocktailRecord) (query : Str) :
    Option (List CocktailRecord) :=
  let ingredients := extract_ingredients_from_query query
  if ingredients = [] then none
  else
    let is_non_alcoholic :=
      strContains (pyLower query) (str "non-alcoholic") ||
      strContains (pyLower query) (str "non alcoholic")
    let relevant_cocktails := ingredients.map (fun ing =>
      let mc := get_cocktails_containing corpus ing
      if is_non_alcoholic then mc.filter (fun r => !r.is_alcoholic) else mc)
    match relevant_cocktails with
    | [] => none
    | d :: rest => some (rest.foldl mergeInner d)

/-- The `result_df` of the ingredient branch with the merge's real failure
behaviour tracked (`pd_merge_inner`): `none` when no ingredients were
extracted; a single-ingredient query performs no merge and succeeds;
with two or more ingredients the fold raises unless every frame involved
is empty. -/
def ingredient_query_results_pd (corpus : List CocktailRecord) (query : Str) :
    Option (Except Unit (List CocktailRecord)) :=
  let ingredients := extract_ingredients_from_query query
  if ingredients = [] then none
  else
    let is_non_alcoholic :=
      strContains (pyLower query) (str "non-alcoholic") ||
      strContains (pyLower query) (str "non alcoholic")
    let relevant_cocktails := ingredients.map (fun ing =>
      let mc := get_cocktails_containing corpus ing
      if is_non_alcoholic then mc.filter (fun r => !r.is_alcoholic) else mc)
    match relevant_cocktails with
    | [] => none
    | d :: rest =>
      some (rest.foldl (fun acc df => acc.bind (fun x => pd_merge_inner x df)) (.ok d))

/-- `(\d+)\s+cocktails` — the optional numeric result-limit override. -/
def limitRE : RE := seqs [.grp (.plusG isDigitChar), .plusG isSpaceChar, litI (str "cocktails")]

def bartenderPrompt : Str :=
  str "You are a knowledgeable bartender assistant. Provide helpful, conversational " ++
  str "responses about cocktails. Use the context provided to answer the user" ++ sq ++
  str "s question.\n\nContext:\n"

def noIngredientsMsg : Str :=
  str "I couldn" ++ sq ++ str "t identify which ingredients you" ++ sq ++
  str "re asking about. Could you specify which ingredients you" ++ sq ++
  str "re interested in?"

/-- `process_ingredient_query`, on the intended value level of
`ingredient_query_results`.  On a multi-ingredient query whose first
per-ingredient frame is non-empty the real branch instead raises inside
the merge (see `pd_merge_inner` / `ingredient_query_results_pd`), so the
multi-ingredient response paths below are reachable only through this
idealization. -/
def process_ingredient_query (env : Env) (user_memory : UserMemory) (query : Str) :
    Str × UserMemory :=
  let ingredients := extract_ingredients_from_query query
  if ingredients = [] then (noIngredientsMsg, user_memory)
  else
    let result_df := (ingredient_query_results env.corpus query).getD []
    let limit :=
      match searchRE limitRE query with
      | some (_, cap) => strToNat (cap.getD [])
      | none => 5
    if result_df ≠ [] then
      let cocktail_names := (result_df.map (fun r => r.name)).take limit
      let ingredients_str := joinSep (str ", ") ingredients
      let context :=
        str "\nFound " ++ natToStr result_df.length ++ str " cocktails containing " ++
        ingredients_str ++ str ".\nHere are " ++
        natToStr (min limit cocktail_names.length) ++ str " of them:\n\n" ++
        cocktail_names.flatMap (fun n => str "- " ++ n ++ str "\n")
      let response := env.llm query (bartenderPrompt ++ context)
      (response, add_to_conversation_history user_memory (str "assistant") response env.now)
    else
      (str "I couldn" ++ sq ++ str "t find any cocktails containing " ++
       joinSep (str ", ") ingredients ++
       str ". Would you like to try different ingredients?", user_memory)

def noCocktailNameMsg : Str :=
  str "I couldn" ++ sq ++ str "t identify which cocktail you" ++ sq ++
  str "re asking about. Could you specify the name of the cocktail?"

/-- `process_cocktail_query`. -/
def process_cocktail_query (env : Env) (user_memory : UserMemory) (query : Str) :
    Str × UserMemory :=
  match extract_cocktail_from_query query with
  | none => (noCocktailNameMsg, user_memory)
  | some cocktail_name =>
    match get_cocktail_by_name_substring env.corpus cocktail_name with
    | some cocktail =>
      let context :=
        str "\nCocktail: " ++ cocktail.name ++ str "\nIngredients: " ++
        cocktail.ingredients ++ str "\nPreparation: " ++ cocktail.preparation ++
        str "\nGlass: " ++ cocktail.glass ++ str "\nGarnish: " ++ cocktail.garnish ++
        str "\n"
      let response := env.llm query (bartenderPrompt ++ context)
      (response, add_to_conversation_history user_memory (str "assistant") response env.now)
    | none =>
      (str "I couldn" ++ sq ++ str "t find information about " ++ cocktail_name ++
       str ". Could you check the spelling or try a different cocktail?", user_memory)

def recommendPromptFavs : Str :=
  str "You are a knowledgeable bartender assistant. Provide helpful, conversational recommendations " ++
  str "based on the user" ++ sq ++ str "s preferences. Use the context provided to personalize your recommendations.\n\nContext:\n"

def recommendPromptSimilar : Str :=
  str "You are a knowledgeable bartender assistant. Provide helpful, conversational recommendations " ++
  str "for cocktails similar to what the user requested. Use the context provided to inform your recommendations.\n\nContext:\n"

def recommendPromptGeneral : Str :=
  str "You are a knowledgeable bartender assistant. Provide helpful, conversational recommendations " ++
  str "for cocktails. Use the context provided to inform your recommendations.\n\nContext:\n"

def noFavoritesMsg : Str :=
  str "I don" ++ sq ++ str "t have any information about your favorite ingredients yet. " ++
  str "Would you like to tell me what ingredients you enjoy?"

/-- `process_recommendation_query`. -/
def process_recommendation_query (env : Env) (user_memory : UserMemory) (query : Str) :
    Str × UserMemory :=
  let cocktail_name := extract_cocktail_from_query query
  if strContains (pyLower query) (str "favorite") ||
     strContains (pyLower query) (str "favourites") ||
     strContains (pyLower query) (str "prefer") then
    let favorite_ingredients := user_memory.favorite_ingredients
    if favorite_ingredients = [] then (noFavoritesMsg, user_memory)
    else
      let similar_cocktails := get_cocktails_with_ingredients env favorite_ingredients 5
      let context :=
        str "\nBased on your favorite ingredients (" ++
        joinSep (str ", ") favorite_ingredients ++
        str "), here are some cocktails you might enjoy:\n\n" ++
        (similar_cocktails.take 5).flatMap
          (fun c => str "- " ++ c.name ++ str ": " ++ c.ingredients ++ str "\n")
      let response := env.llm query (recommendPromptFavs ++ context)
      (response, add_to_conversation_history user_memory (str "assistant") response env.now)
  else
    match cocktail_name with
    | some name =>
      let similar_cocktails := get_similar_cocktails env name 5
      if similar_cocktails = [] then
        (str "I couldn" ++ sq ++ str "t find " ++ name ++
         str " or any similar cocktails. Could you check the spelling or try a different cocktail?",
         user_memory)
      else
        let context :=
          str "\nBased on the cocktail \"" ++ name ++
          str "\", here are some similar cocktails you might enjoy:\n\n" ++
          (similar_cocktails.take 5).flatMap (fun c =>
            if pyLower c.name ≠ pyLower name then
              str "- " ++ c.name ++ str ": " ++ c.ingredients ++ str "\n"
            else [])
        let response := env.llm query (recommendPromptSimilar ++ context)
        (response, add_to_conversation_history user_memory (str "assistant") response env.now)
    | none =>
      let popular_cocktails := env.samples
      let context :=
        str "\nHere are some popular cocktail recommendations:\n\n" ++
        popular_cocktails.flatMap
          (fun c => str "- " ++ c.name ++ str ": " ++ c.ingredients ++ str "\n")
      let response := env.llm query (recommendPromptGeneral ++ context)
      (response, add_to_conversation_history user_memory (str "assistant") response env.now)

def generalPrompt : Str :=
  str "You are a knowledgeable bartender assistant. Provide helpful, conversational responses about cocktails. " ++
  str "If the user" ++ sq ++ str "s query is not specifically about cocktails, still try to be helpful but gently steer the " ++
  str "conversation back to cocktails when appropriate.\n\nContext:\n"

/-- `process_general_query`. -/
def process_general_query (env : Env) (user_memory : UserMemory) (query : Str) :
    Str × UserMemory :=
  let relevant_cocktails := env.vsearch query 3
  let context :=
    str "Here" ++ sq ++ str "s some information that might help with your question:\n\n" ++
    relevant_cocktails.flatMap (fun cocktail =>
      str "Cocktail: " ++ cocktail.name ++ str "\n" ++
      str "Ingredients: " ++ cocktail.ingredients ++ str "\n" ++
      str "Preparation: " ++ cocktail.preparation ++ str "\n" ++
      (if cocktail.garnish ≠ [] then str "Garnish: " ++ cocktail.garnish ++ str "\n" else []) ++
      str "\n")
  let favorite_ingredients := user_memory.favorite_ingredients
  let context2 :=
    context ++
    (if favorite_ingredients ≠ [] then
      str "Your favorite ingredients: " ++ joinSep (str ", ") favorite_ingredients ++ str "\n"
    else [])
  let response := env.llm query (generalPrompt ++ context2)
  let m1 := (process_user_message user_memory query env.now).2
  (response, add_to_conversation_history m1 (str "assistant") response env.now)

def prefsPrompt : Str :=
  str "You are a knowledgeable bartender assistant. Provide helpful, conversational responses about " ++
  str "the user" ++ sq ++ str "s preferences. Use the context provided to personalize your response.\n\nContext:\n"

def prefsSavedPrompt : Str :=
  str "You are a knowledgeable bartender assistant. Acknowledge that you" ++ sq ++
  str "ve saved the user" ++ sq ++ str "s preferences " ++
  str "and provide a friendly response. Use the context provided to personalize your response.\n\nContext:\n"

/-- `process_preference_query`: recall branch, report-updated branch, general
fallback. -/
def process_preference_query (env : Env) (user_memory : UserMemory) (query : Str) :
    Str × UserMemory :=
  if strContains (pyLower query) (str "what are my") ||
     strContains (pyLower query) (str "tell me my") then
    let favorite_ingredients := user_memory.favorite_ingredients
    let favorite_cocktails := user_memory.favorite_cocktails
    let context :=
      str "Here are your preferences:\n" ++
      (if favorite_ingredients ≠ [] then
        str "\nFavorite ingredients: " ++ joinSep (str ", ") favorite_ingredients
      else str "\nYou haven" ++ sq ++ str "t told me about any favorite ingredients yet.") ++
      (if favorite_cocktails ≠ [] then
        str "\nFavorite cocktails: " ++ joinSep (str ", ") favorite_cocktails
      else str "\nYou haven" ++ sq ++ str "t told me about any favorite cocktails yet.")
    let response := env.llm query (prefsPrompt ++ context)
    (response, add_to_conversation_history user_memory (str "assistant") response env.now)
  else
    let pumRes := process_user_message user_memory query env.now
    let preference_result := pumRes.1
    let m1 := pumRes.2
    if preference_result.new_favorite_ingredients ≠ [] ∨
       preference_result.new_favorite_cocktails ≠ [] then
      let context :=
        str "I" ++ sq ++ str "ve updated your preferences:\n" ++
        (if preference_result.new_favorite_ingredients ≠ [] then
          str "\nAdded favorite ingredients: " ++
          joinSep (str ", ") preference_result.new_favorite_ingredients
        else []) ++
        (if preference_result.new_favorite_cocktails ≠ [] then
          str "\nAdded favorite cocktails: " ++
          joinSep (str ", ") preference_result.new_favorite_cocktails
        else [])
      let response := env.llm query (prefsSavedPrompt ++ context)
      (response, add_to_conversation_history m1 (str "assistant") response env.now)
    else process_general_query env m1 query

/-- `RAGSystem.generate_response`: detect preferences first, classify, then
dispatch on the intent. -/
def generate_response (env : Env) (user_memory : UserMemory) (query : Str) :
    Str × UserMemory :=
  let m1 := (process_user_message user_memory query env.now).2
  let query_type := identify_query_type query
  if query_type = "ingredient_query" then process_ingredient_query env m1 query
  else if query_type = "cocktail_query" then process_cocktail_query env m1 query
  else if query_type = "recommendation" then process_recommendation_query env m1 query
  else if query_type = "preference" then process_preference_query env m1 query
  else process_general_query env m1 query

/-! ## The `/chat` endpoint (`app/api/routes.py`) -/

structure ChatResp where
  response : Str
  detected_ingredients : List Str
  detected_cocktails : List Str
deriving DecidableEq, Repr

/-- `routes.chat`: generate the response, then report every detected
preference phrase that is now among the user's favorites. -/
def chat (env : Env) (user_memory : UserMemory) (message : Str) :
    ChatResp × UserMemory :=
  let genRes := generate_response env user_memory message
  let response := genRes.1
  let m1 := genRes.2
  let all_ingredients := m1.favorite_ingredients
  let detected_ingredients := detect_favorite_ingredients message
  let report_ingredients := detected_ingredients.filter (fun i => i ∈ all_ingredients)
  let all_cocktails := m1.favorite_cocktails
  let detected_cocktails := detect_favorite_cocktails message
  let report_cocktails := detected_cocktails.filter (fun c => c ∈ all_cocktails)
  (⟨response, report_ingredients, report_cocktails⟩, m1)

/-! ## Statement helpers and concrete fixtures -/

/-- The last `n` elements of a list, in order. -/
def lastN (n : Nat) (l : List α) : List α := l.drop (l.length - n)

def toConvEntry (e : Str × Str × Str) : ConvEntry := ⟨e.1, e.2.1, e.2.2⟩

/-- Run a sequence of history appends (role, content, timestamp) from a fresh
profile. -/
def run_history (msgs : List (Str × Str × Str)) : UserMemory :=
  msgs.foldl (fun m e => add_to_conversation_history m e.1 e.2.1 e.2.2) emptyMemory

/-- An alcoholic record containing both lemon and mint. -/
def ginSmash : CocktailRecord :=
  mkRecord (str "Gin Smash") (str "lemon, mint, gin") (str "") (str "") (str "")

def mojitoRec : CocktailRecord :=
  mkRecord (str "Mojito") (str "rum, mint, lime") (str "Mint sprig") (str "Muddle")
    (str "Highball")

def virginMojitoRec : CocktailRecord :=
  mkRecord (str "Virgin Mojito") (str "mint, lime, soda water") (str "Mint sprig")
    (str "Muddle") (str "Highball")

/-- A record whose name "majito" does not contain "m.jito" as a substring but
is matched by it as a regular expression (`.` matches the `a`). -/
def majitoRec : CocktailRecord :=
  mkRecord (str "Majito") (str "rum, mint") (str "") (str "") (str "")

/-- A concrete environment with inert collaborators, for witnesses. -/
def trivialEnv : Env := ⟨fun _ _ => [], fun _ _ => [], [], [], []⟩

/-- A profile that already has "gin" as a favorite ingredient. -/
def ginMemory : UserMemory := ⟨[str "gin"], [], []⟩

/-- Does the string contain an opening parenthesis with a closing parenthesis
somewhere after it — i.e. would the parenthetical pattern match anywhere? -/
def hasParenPair : Str → Bool
  | [] => false
  | c :: t => (c = '(' && t.contains ')') || hasParenPair t

/-! ## Character-level lemmas -/

theorem char_toNat_ofNat {n : Nat} (h : n < 55296) : (Char.ofNat n).toNat = n := by
  have hv : Nat.isValidChar n := Or.inl h
  rw [Char.ofNat, dif_pos hv]
  rfl

theorem lowerChar_toNat_upper {c : Char} (h : 65 ≤ c.toNat ∧ c.toNat ≤ 90) :
    (lowerChar c).toNat = c.toNat + 32 := by
  rw [lowerChar, if_pos h]
  exact char_toNat_ofNat (by omega)

theorem lowerChar_eq_self {c : Char} (h : ¬(65 ≤ c.toNat ∧ c.toNat ≤ 90)) :
    lowerChar c = c := by
  rw [lowerChar, if_neg h]

theorem lowerChar_idem (c : Char) : lowerChar (lowerChar c) = lowerChar c := by
  by_cases h : 65 ≤ c.toNat ∧ c.toNat ≤ 90
  · have h1 := lowerChar_toNat_upper h
    exact lowerChar_eq_self (by omega)
  · simp only [lowerChar_eq_self h]

/-- For a character `k` below the uppercase range (all delimiters, punctuation
and whitespace used here), lowercasing reaches `k` only from `k`. -/
theorem lowerChar_eq_low_iff {k : Char} (hk : k.toNat < 65) (c : Char) :
    lowerChar c = k ↔ c = k := by
  constructor
  · intro h
    by_cases hu : 65 ≤ c.toNat ∧ c.toNat ≤ 90
    · exfalso
      have h2 := congrArg Char.toNat h
      rw [lowerChar_toNat_upper hu] at h2
      omega
    · rwa [lowerChar_eq_self hu] at h
  · intro h
    subst h
    exact lowerChar_eq_self (by omega)

theorem isSpaceChar_lowerChar (c : Char) : isSpaceChar (lowerChar c) = isSpaceChar c := by
  by_cases hu : 65 ≤ c.toNat ∧ c.toNat ≤ 90
  · have h1 := lowerChar_toNat_upper hu
    have hA : isSpaceChar (lowerChar c) = false := by
      simp only [isSpaceChar, h1, Bool.or_eq_false_iff, decide_eq_false_iff_not]
      omega
    have hB : isSpaceChar c = false := by
      simp only [isSpaceChar, Bool.or_eq_false_iff, decide_eq_false_iff_not]
      omega
    rw [hA, hB]
  · rw [lowerChar_eq_self hu]

theorem isDelim_lowerChar (c : Char) : isDelim (lowerChar c) = isDelim c := by
  simp only [isDelim]
  rw [show decide (lowerChar c = ',') = decide (c = ',') from
      decide_eq_decide.mpr (lowerChar_eq_low_iff (by decide) c),
    show decide (lowerChar c = ';') = decide (c = ';') from
      decide_eq_decide.mpr (lowerChar_eq_low_iff (by decide) c),
    show decide (lowerChar c = '\n') = decide (c = '\n') from
      decide_eq_decide.mpr (lowerChar_eq_low_iff (by decide) c)]

/-! ## String-level lemmas -/

theorem pyLower_idem (s : Str) : pyLower (pyLower s) = pyLower s := by
  simp only [pyLower, List.map_map]
  exact List.map_congr_left (fun c _ => lowerChar_idem c)

theorem pyStrip_eq (s : Str) :
    pyStrip s = List.rdropWhile isSpaceChar (List.dropWhile isSpaceChar s) := rfl

theorem dropWhile_isSuffix (p : α → Bool) (l : List α) : List.dropWhile p l <:+ l := by
  induction l with
  | nil => exact List.suffix_refl _
  | cons c t ih =>
    by_cases h : p c
    · rw [List.dropWhile_cons, if_pos h]
      exact ih.trans (List.suffix_cons c t)
    · rw [List.dropWhile_cons, if_neg h]

theorem pyStrip_sublist (s : Str) : List.Sublist (pyStrip s) s := by
  rw [pyStrip_eq]
  exact (List.rdropWhile_prefix _ _).sublist.trans (dropWhile_isSuffix _ s).sublist

theorem pyStrip_idem (s : Str) : pyStrip (pyStrip s) = pyStrip s := by
  rw [pyStrip_eq, pyStrip_eq]
  have hdu : List.dropWhile isSpaceChar (List.dropWhile isSpaceChar s)
      = List.dropWhile isSpaceChar s := List.dropWhile_idempotent _ _
  have hpre : List.rdropWhile isSpaceChar (List.dropWhile isSpaceChar s)
      <+: List.dropWhile isSpaceChar s := List.rdropWhile_prefix _ _
  have hdv : List.dropWhile isSpaceChar
      (List.rdropWhile isSpaceChar (List.dropWhile isSpaceChar s))
      = List.rdropWhile isSpaceChar (List.dropWhile isSpaceChar s) := by
    cases hvv : List.rdropWhile isSpaceChar (List.dropWhile isSpaceChar s) with
    | nil => simp
    | cons c t =>
      obtain ⟨w, hw⟩ := hpre
      rw [hvv] at hw
      rw [← hw, List.cons_append, List.dropWhile_cons] at hdu
      by_cases hc : isSpaceChar c
      · exfalso
        rw [if_pos hc] at hdu
        have hlen := congrArg List.length hdu
        have hle := ((dropWhile_isSuffix isSpaceChar (t ++ w)).sublist).length_le
        simp only [List.length_append, List.length_cons] at hlen hle
        omega
      · rw [List.dropWhile_cons, if_neg hc]
  rw [hdv, List.rdropWhile_idempotent]

theorem dropWhile_map_lowerChar (s : Str) :
    List.dropWhile isSpaceChar (pyLower s) = pyLower (List.dropWhile isSpaceChar s) := by
  induction s with
  | nil => rfl
  | cons c t ih =>
    simp only [pyLower, List.map_cons, List.dropWhile_cons, isSpaceChar_lowerChar]
    by_cases h : isSpaceChar c
    · rw [if_pos h, if_pos h]
      exact ih
    · rw [if_neg h, if_neg h, List.map_cons]

theorem pyLower_reverse (s : Str) : pyLower s.reverse = (pyLower s).reverse :=
  List.map_reverse lowerChar s

theorem pyStrip_pyLower (s : Str) : pyStrip (pyLower s) = pyLower (pyStrip s) :=
  calc pyStrip (pyLower s)
      = (((pyLower s).dropWhile isSpaceChar).reverse.dropWhile isSpaceChar).reverse := rfl
    _ = ((pyLower (s.dropWhile isSpaceChar)).reverse.dropWhile isSpaceChar).reverse := by
        rw [dropWhile_map_lowerChar]
    _ = ((pyLower ((s.dropWhile isSpaceChar).reverse)).dropWhile isSpaceChar).reverse := by
        rw [pyLower_reverse]
    _ = (pyLower (((s.dropWhile isSpaceChar).reverse).dropWhile isSpaceChar)).reverse := by
        rw [dropWhile_map_lowerChar]
    _ = pyLower ((((s.dropWhile isSpaceChar).reverse).dropWhile isSpaceChar).reverse) := by
        rw [pyLower_reverse]
    _ = pyLower (pyStrip s) := rfl

theorem strContains_eq_true_iff (hay needle : Str) :
    strContains hay needle = true ↔ needle <:+: hay := by
  induction hay with
  | nil =>
    rw [strContains]
    constructor
    · intro h
      split at h
      · exact (List.isPrefixOf_iff_prefix.mp (by assumption)).isInfix
      · exact absurd h (by simp)
    · intro h
      have hnil : needle = [] := List.sublist_nil.mp h.sublist
      rw [if_pos (by rw [hnil]; simp)]
  | cons c t ih =>
    rw [strContains]
    constructor
    · intro h
      split at h
      · exact (List.isPrefixOf_iff_prefix.mp (by assumption)).isInfix
      · exact List.infix_cons_iff.mpr (Or.inr (ih.mp h))
    · intro h
      rcases List.infix_cons_iff.mp h with hp | hi
      · rw [if_pos (List.isPrefixOf_iff_prefix.mpr hp)]
      · split
        · rfl
        · exact ih.mpr hi

/-! ## Lemmas about the regex engine -/

theorem greedyDrops_suffix (p : Char → Bool) (lo : Nat) (s t : Str)
    (h : t ∈ greedyDrops p lo s) : t <:+ s := by
  simp only [greedyDrops, List.mem_filterMap] at h
  obtain ⟨i, _, hi⟩ := h
  split at hi
  · cases hi
    exact List.drop_suffix i s
  · cases hi

theorem lazyDrops_suffix (p : Char → Bool) (s t : Str)
    (h : t ∈ lazyDrops p s) : t <:+ s := by
  simp only [lazyDrops, List.mem_filterMap] at h
  obtain ⟨i, _, hi⟩ := h
  split at hi
  · cases hi
    exact List.drop_suffix i s
  · cases hi

/-- All candidate suffixes returned by the matcher are suffixes of the input. -/
theorem matchRE_suffix (e : RE) (s : Str) (r : Str × Option Str)
    (h : r ∈ matchRE e s) : r.1 <:+ s := by
  induction e generalizing s r with
  | eps =>
    rw [matchRE, List.mem_singleton] at h
    rw [h]
  | cls p =>
    cases s with
    | nil =>
      rw [matchRE] at h
      cases h
    | cons c t =>
      rw [matchRE] at h
      split at h
      · rw [List.mem_singleton] at h
        rw [h]
        exact List.suffix_cons c t
      · cases h
  | seq a b iha ihb =>
    rw [matchRE, List.mem_flatMap] at h
    obtain ⟨r1, hr1, hr⟩ := h
    rw [List.mem_map] at hr
    obtain ⟨r2, hr2, hre⟩ := hr
    have h2 := ihb r1.1 r2 hr2
    have h1 := iha s r1 hr1
    rw [← hre]
    exact h2.trans h1
  | alt a b iha ihb =>
    rw [matchRE, List.mem_append] at h
    rcases h with h | h
    · exact iha s r h
    · exact ihb s r h
  | opt a iha =>
    rw [matchRE, List.mem_append] at h
    rcases h with h | h
    · exact iha s r h
    · rw [List.mem_singleton] at h
      rw [h]
  | starG p =>
    rw [matchRE, List.mem_map] at h
    obtain ⟨t, ht, hte⟩ := h
    rw [← hte]
    exact greedyDrops_suffix p 0 s t ht
  | plusG p =>
    rw [matchRE, List.mem_map] at h
    obtain ⟨t, ht, hte⟩ := h
    rw [← hte]
    exact greedyDrops_suffix p 1 s t ht
  | plusL p =>
    rw [matchRE, List.mem_map] at h
    obtain ⟨t, ht, hte⟩ := h
    rw [← hte]
    exact lazyDrops_suffix p s t ht
  | grp a iha =>
    rw [matchRE, List.mem_map] at h
    obtain ⟨r1, hr1, hre⟩ := h
    rw [← hre]
    exact iha s r1 hr1

/-- Characters surviving `subAnchored` come from the input. -/
theorem subAnchored_subset (e : RE) (s : Str) (c : Char)
    (h : c ∈ subAnchored e s) : c ∈ s := by
  rw [subAnchored] at h
  split at h
  · next rest cap heq =>
    exact (matchRE_suffix e s (rest, cap)
      (List.mem_of_mem_head? (by rw [heq]; simp))).subset h
  · exact h

/-- Characters surviving `subAllAux` come from the input. -/
theorem subAllAux_subset (e : RE) (fuel : Nat) (s : Str) (c : Char)
    (h : c ∈ subAllAux e fuel s) : c ∈ s := by
  induction fuel generalizing s with
  | zero => exact h
  | succ f ih =>
    cases s with
    | nil =>
      unfold subAllAux at h
      split at h
      · next rest cap heq =>
        exact (matchRE_suffix e [] (rest, cap)
          (List.mem_of_mem_head? (by rw [heq]; simp))).subset (ih rest h)
      · cases h
    | cons a t =>
      unfold subAllAux at h
      split at h
      · next rest cap heq =>
        exact (matchRE_suffix e (a :: t) (rest, cap)
          (List.mem_of_mem_head? (by rw [heq]; simp))).subset (ih rest h)
      · rcases List.mem_cons.mp h with h | h
        · rw [h]; exact List.mem_cons_self a t
        · exact List.mem_cons_of_mem a (ih t h)

/-! ## Lemmas about the split on `[,;\n]` -/

theorem splitOnPred_pieces (p : Char → Bool) (s : Str) (piece : Str)
    (hp : piece ∈ splitOnPred p s) : ∀ c ∈ piece, p c = false := by
  induction s generalizing piece with
  | nil =>
    rw [splitOnPred, List.mem_singleton] at hp
    rw [hp]
    intro c hc
    cases hc
  | cons a t ih =>
    rw [splitOnPred] at hp
    split at hp
    · rcases List.mem_cons.mp hp with h | h
      · rw [h]; intro c hc; cases hc
      · exact ih piece h
    · next hpa =>
      rcases htt : splitOnPred p t with _ | ⟨h1, r⟩
      · rw [htt, List.mem_singleton] at hp
        rw [hp]
        intro c hc
        rcases List.mem_cons.mp hc with h | h
        · rw [h]; simpa using hpa
        · cases h
      · rw [htt] at hp
        rcases List.mem_cons.mp hp with h | h
        · rw [h]
          intro c hc
          rcases List.mem_cons.mp hc with hcc | hcc
          · rw [hcc]; simpa using hpa
          · exact ih h1 (by rw [htt]; exact List.mem_cons_self h1 r) c hcc
        · exact ih piece (by rw [htt]; exact List.mem_cons_of_mem h1 h)

theorem splitOnPred_all_false (p : Char → Bool) (s : Str)
    (h : ∀ c ∈ s, p c = false) : splitOnPred p s = [s] := by
  induction s with
  | nil => rfl
  | cons a t ih =>
    rw [splitOnPred]
    have ha : p a = false := h a (List.mem_cons_self a t)
    rw [if_neg (by rw [ha]; exact Bool.false_ne_true)]
    rw [ih (fun c hc => h c (List.mem_cons_of_mem a hc))]

/-! ## Unfolding equations for the matcher (definitional) -/

theorem matchRE_seq (a b : RE) (s : Str) :
    matchRE (.seq a b) s = (matchRE a s).flatMap
      (fun r1 => (matchRE b r1.1).map (fun r2 => (r2.1, r2.2 <|> r1.2))) := rfl

theorem matchRE_cls_nil (p : Char → Bool) : matchRE (.cls p) [] = [] := rfl

theorem matchRE_cls_cons (p : Char → Bool) (c : Char) (t : Str) :
    matchRE (.cls p) (c :: t) = if p c then [(t, none)] else [] := rfl

theorem matchRE_starG (p : Char → Bool) (s : Str) :
    matchRE (.starG p) s = (greedyDrops p 0 s).map (fun t => (t, none)) := rfl

/-! ## Lemmas about parenthetical-note removal -/

theorem dropWhile_head_not (p : α → Bool) (l : List α) (a : α) (u : List α)
    (h : l.dropWhile p = a :: u) : p a = false := by
  induction l with
  | nil => cases h
  | cons c t ih =>
    rw [List.dropWhile_cons] at h
    split at h
    · exact ih h
    · next hc =>
      cases h
      simpa using hc

theorem matchRE_parenRE_nil : matchRE parenRE [] = [] := rfl

theorem matchRE_parenRE_cons_ne (c : Char) (t : Str) (h : c ≠ '(') :
    matchRE parenRE (c :: t) = [] := by
  show matchRE (.seq (chE '(') (.seq (.starG (fun c => c ≠ ')')) (chE ')'))) (c :: t) = []
  rw [matchRE_seq, chE, matchRE_cls_cons, if_neg (by simpa using h)]
  rfl

theorem matchRE_parenRE_lparen_no_rparen (t : Str) (h : ')' ∉ t) :
    matchRE parenRE ('(' :: t) = [] := by
  show matchRE (.seq (chE '(') (.seq (.starG (fun c => c ≠ ')')) (chE ')'))) ('(' :: t) = []
  rw [matchRE_seq, chE, matchRE_cls_cons, if_pos (by simp)]
  rw [show [((t : Str), (none : Option Str))].flatMap
      (fun r1 => (matchRE (.seq (.starG (fun c => c ≠ ')')) (chE ')')) r1.1).map
        (fun r2 => (r2.1, r2.2 <|> r1.2)))
    = (matchRE (.seq (.starG (fun c => c ≠ ')')) (chE ')')) t).map
        (fun r2 => (r2.1, r2.2 <|> none)) from by simp]
  rw [List.map_eq_nil_iff, matchRE_seq, List.flatMap_eq_nil_iff]
  intro r2 hr2
  have hsuf : r2.1 <:+ t := matchRE_suffix _ t r2 hr2
  rw [List.map_eq_nil_iff]
  cases hr : r2.1 with
  | nil => rw [chE, matchRE_cls_nil]
  | cons a u =>
    rw [chE, matchRE_cls_cons, if_neg]
    simp only [decide_eq_true_eq]
    intro ha
    apply h
    apply hsuf.subset
    rw [hr, ha]
    exact List.mem_cons_self _ _

theorem matchRE_parenRE_lparen_rparen (t : Str) (h : ')' ∈ t) :
    matchRE parenRE ('(' :: t) ≠ [] := by
  show matchRE (.seq (chE '(') (.seq (.starG (fun c => c ≠ ')')) (chE ')'))) ('(' :: t) ≠ []
  rw [matchRE_seq, chE, matchRE_cls_cons, if_pos (by simp)]
  have hdw : t.dropWhile (fun c => c ≠ ')') ≠ [] := by
    intro hnil
    rw [List.dropWhile_eq_nil_iff] at hnil
    have := hnil ')' h
    simp at this
  obtain ⟨rest, hrest⟩ : ∃ rest, t.dropWhile (fun c => c ≠ ')') = ')' :: rest := by
    cases hdd : t.dropWhile (fun c => c ≠ ')') with
    | nil => exact absurd hdd hdw
    | cons a u =>
      have ha := dropWhile_head_not _ t a u hdd
      have haeq : a = ')' := by simpa using ha
      exact ⟨u, by rw [haeq]⟩
  have hdropn : t.drop ((t.takeWhile (fun c => c ≠ ')')).length) = ')' :: rest := by
    have hsplit := List.takeWhile_append_dropWhile (p := fun c => (c ≠ ')' : Bool)) (l := t)
    calc t.drop ((t.takeWhile (fun c => c ≠ ')')).length)
        = (t.takeWhile (fun c => c ≠ ')') ++ t.dropWhile (fun c => c ≠ ')')).drop
            ((t.takeWhile (fun c => c ≠ ')')).length) := by rw [hsplit]
      _ = t.dropWhile (fun c => c ≠ ')') := List.drop_left _ _
      _ = ')' :: rest := hrest
  apply List.ne_nil_of_mem (a := (rest, (none : Option Str)))
  rw [List.mem_flatMap]
  refine ⟨(t, none), List.mem_singleton.mpr rfl, ?_⟩
  dsimp only
  rw [List.mem_map]
  refine ⟨(rest, none), ?_, rfl⟩
  rw [matchRE_seq, List.mem_flatMap]
  refine ⟨(')' :: rest, none), ?_, ?_⟩
  · rw [matchRE_starG, List.mem_map]
    refine ⟨')' :: rest, ?_, rfl⟩
    rw [greedyDrops, List.mem_filterMap]
    refine ⟨(t.takeWhile (fun c => c ≠ ')')).length, ?_, ?_⟩
    · rw [List.mem_reverse, List.mem_range]
      omega
    · rw [if_pos (Nat.zero_le _), hdropn]
  · rw [chE, matchRE_cls_cons, if_pos (by simp), List.mem_map]
    exact ⟨(rest, none), List.mem_singleton.mpr rfl, rfl⟩

/-- A string with no complete parenthetical is a fixed point of the removal. -/
theorem subAllAux_parenRE_fix (fuel : Nat) (s : Str) (h : hasParenPair s = false) :
    subAllAux parenRE fuel s = s := by
  induction fuel generalizing s with
  | zero => rfl
  | succ f ih =>
    cases s with
    | nil =>
      unfold subAllAux
      rw [matchRE_parenRE_nil]
      rfl
    | cons c t =>
      rw [hasParenPair, Bool.or_eq_false_iff, Bool.and_eq_false_iff] at h
      have hm : matchRE parenRE (c :: t) = [] := by
        by_cases hc : c = '('
        · subst hc
          rcases h.1 with h1 | h1
          · simp at h1
          · exact matchRE_parenRE_lparen_no_rparen t (by
              intro hmem
              rw [List.contains_eq_any_beq] at h1
              simp only [List.any_eq_false] at h1
              have := h1 ')' hmem
              simp at this)
        · exact matchRE_parenRE_cons_ne c t hc
      unfold subAllAux
      rw [hm]
      show c :: subAllAux parenRE f t = c :: t
      rw [ih t h.2]

/-- Any match of the parenthetical pattern consumes at least one character. -/
theorem matchRE_parenRE_shrink (s : Str) (r : Str × Option Str)
    (h : r ∈ matchRE parenRE s) : r.1.length < s.length := by
  cases s with
  | nil => rw [matchRE_parenRE_nil] at h; cases h
  | cons c t =>
    by_cases hc : c = '('
    · subst hc
      rw [show matchRE parenRE ('(' :: t)
          = matchRE (.seq (chE '(') (.seq (.starG (fun c => c ≠ ')')) (chE ')')))
              ('(' :: t) from rfl,
        matchRE_seq, chE, matchRE_cls_cons, if_pos (by simp)] at h
      simp only [List.flatMap_cons, List.flatMap_nil, List.append_nil, List.mem_map] at h
      obtain ⟨r2, hr2, hre⟩ := h
      have hle := (matchRE_suffix _ t r2 hr2).length_le
      rw [← hre]
      simp only [List.length_cons]
      omega
    · rw [matchRE_parenRE_cons_ne c t hc] at h
      cases h

/-- With enough fuel, the removal's output contains no complete parenthetical. -/
theorem hasParenPair_subAllAux (fuel : Nat) (s : Str) (hf : s.length ≤ fuel) :
    hasParenPair (subAllAux parenRE fuel s) = false := by
  induction fuel generalizing s with
  | zero =>
    have hnil : s = [] := List.eq_nil_of_length_eq_zero (by omega)
    rw [hnil]
    rfl
  | succ f ih =>
    cases hm : (matchRE parenRE s).head? with
    | some r =>
      have hmem : r ∈ matchRE parenRE s := List.mem_of_mem_head? (by rw [hm]; simp)
      have hlt := matchRE_parenRE_shrink s r hmem
      cases s with
      | nil => rw [matchRE_parenRE_nil] at hm; cases hm
      | cons c t =>
        unfold subAllAux
        rw [hm]
        exact ih r.1 (by simp only [List.length_cons] at hlt hf ⊢; omega)
    | none =>
      cases s with
      | nil =>
        unfold subAllAux
        rw [hm]
        rfl
      | cons c t =>
        unfold subAllAux
        rw [hm]
        show hasParenPair (c :: subAllAux parenRE f t) = false
        rw [hasParenPair, Bool.or_eq_false_iff, Bool.and_eq_false_iff]
        constructor
        · by_cases hc : c = '('
          · right
            subst hc
            rw [List.contains_eq_any_beq]
            simp only [List.any_eq_false]
            intro a ha
            simp only [beq_iff_eq]
            intro hae
            subst hae
            have hget : ')' ∈ t := subAllAux_subset parenRE f t ')' ha
            have hne := matchRE_parenRE_lparen_rparen t hget
            rw [List.head?_eq_none_iff] at hm
            exact hne hm
          · left
            simpa using hc
        · exact ih t (by simp only [List.length_cons] at hf; omega)

theorem removeParens_fix_of_no_pair (s : Str) (h : hasParenPair s = false) :
    removeParens s = s := subAllAux_parenRE_fix _ s h

theorem hasParenPair_removeParens (s : Str) :
    hasParenPair (removeParens s) = false :=
  hasParenPair_subAllAux _ s (by omega)

theorem contains_true_iff (l : Str) (x : Char) : (l.contains x = true) ↔ x ∈ l := by
  rw [List.contains_eq_any_beq]
  simp

theorem contains_eq_false_iff (l : Str) (x : Char) : (l.contains x = false) ↔ x ∉ l := by
  rw [List.contains_eq_any_beq]
  simp
  constructor
  · intro h hmem
    exact h x hmem rfl
  · intro h y hy hxy
    rw [hxy] at h
    exact h hy

theorem hasParenPair_sublist {s' s : Str} (hsub : List.Sublist s' s)
    (h : hasParenPair s = false) : hasParenPair s' = false := by
  induction hsub with
  | slnil => rfl
  | cons a hs ih =>
    rw [hasParenPair, Bool.or_eq_false_iff] at h
    exact ih h.2
  | cons₂ a hs ih =>
    rw [hasParenPair, Bool.or_eq_false_iff, Bool.and_eq_false_iff] at h ⊢
    refine ⟨?_, ih h.2⟩
    rcases h.1 with h1 | h1
    · exact Or.inl h1
    · right
      rw [contains_eq_false_iff] at h1 ⊢
      intro hmem
      exact h1 (hs.subset hmem)

theorem mem_pyLower_iff (t : Str) (x : Char) (hx : x.toNat < 65) :
    x ∈ pyLower t ↔ x ∈ t := by
  rw [pyLower, List.mem_map]
  constructor
  · rintro ⟨c, hc, hce⟩
    rwa [(lowerChar_eq_low_iff hx c).mp hce] at hc
  · intro hmem
    exact ⟨x, hmem, (lowerChar_eq_low_iff hx x).mpr rfl⟩

theorem hasParenPair_pyLower (s : Str) : hasParenPair (pyLower s) = hasParenPair s := by
  induction s with
  | nil => rfl
  | cons c t ih =>
    show hasParenPair (lowerChar c :: pyLower t) = _
    rw [hasParenPair, hasParenPair, ih]
    have h1 : (decide (lowerChar c = '(')) = (decide (c = '(')) :=
      decide_eq_decide.mpr (lowerChar_eq_low_iff (by decide) c)
    have h2 : (pyLower t).contains ')' = t.contains ')' :=
      Bool.eq_iff_iff.mpr (by
        rw [contains_true_iff, contains_true_iff, mem_pyLower_iff t ')' (by decide)])
    rw [h1, h2]

/-! ## Shape of the tokens produced by `extract_ingredients` -/

/-- Every produced token is the lowercased strip of the fully-cleaned piece. -/
theorem extract_token_shape (s t : Str) (h : t ∈ extract_ingredients s) :
    ∃ piece, piece ∈ splitOnPred isDelim s ∧
      t = pyLower (pyStrip (removeParens
        (subAnchored qty2RE (subAnchored qty1RE (pyStrip piece))))) ∧
      pyStrip (removeParens
        (subAnchored qty2RE (subAnchored qty1RE (pyStrip piece)))) ≠ [] := by
  unfold extract_ingredients at h
  split at h
  · cases h
  · rw [List.mem_flatMap] at h
    obtain ⟨piece, hp, hbody⟩ := h
    refine ⟨piece, hp, ?_⟩
    have hbody2 : t ∈
        (if pyStrip piece = [] then []
         else
          if pyStrip (removeParens
              (subAnchored qty2RE (subAnchored qty1RE (pyStrip piece)))) = [] then []
          else [pyLower (pyStrip (removeParens
              (subAnchored qty2RE (subAnchored qty1RE (pyStrip piece)))))]) := hbody
    split at hbody2
    · cases hbody2
    · split at hbody2
      · cases hbody2
      · next hne =>
        rw [List.mem_singleton] at hbody2
        exact ⟨hbody2, hne⟩

theorem extract_token_stripped (s t : Str) (h : t ∈ extract_ingredients s) :
    pyStrip t = t := by
  obtain ⟨piece, _, ht, _⟩ := extract_token_shape s t h
  rw [ht, pyStrip_pyLower, pyStrip_idem]

theorem extract_token_lower (s t : Str) (h : t ∈ extract_ingredients s) :
    pyLower t = t := by
  obtain ⟨piece, _, ht, _⟩ := extract_token_shape s t h
  rw [ht, pyLower_idem]

theorem extract_token_ne_nil (s t : Str) (h : t ∈ extract_ingredients s) :
    t ≠ [] := by
  obtain ⟨piece, _, ht, hne⟩ := extract_token_shape s t h
  rw [ht]
  intro hcon
  rw [pyLower, List.map_eq_nil_iff] at hcon
  exact hne hcon

theorem extract_token_no_delim (s t : Str) (h : t ∈ extract_ingredients s) :
    ∀ c ∈ t, isDelim c = false := by
  obtain ⟨piece, hp, ht, _⟩ := extract_token_shape s t h
  intro c hc
  rw [ht, pyLower, List.mem_map] at hc
  obtain ⟨c0, hc0, hce⟩ := hc
  have h1 : c0 ∈ removeParens (subAnchored qty2RE (subAnchored qty1RE (pyStrip piece))) :=
    (pyStrip_sublist _).subset hc0
  have h2 := subAllAux_subset _ _ _ _ h1
  have h3 := subAnchored_subset _ _ _ h2
  have h4 := subAnchored_subset _ _ _ h3
  have h5 : c0 ∈ piece := (pyStrip_sublist piece).subset h4
  have h6 := splitOnPred_pieces isDelim s piece hp c0 h5
  rw [← hce, isDelim_lowerChar]
  exact h6

theorem extract_token_no_paren (s t : Str) (h : t ∈ extract_ingredients s) :
    hasParenPair t = false := by
  obtain ⟨piece, _, ht, _⟩ := extract_token_shape s t h
  rw [ht, hasParenPair_pyLower]
  exact hasParenPair_sublist (pyStrip_sublist _) (hasParenPair_removeParens _)

/-- C9 (amended): normalization is idempotent on already-normalized tokens
that do not begin with a removable quantity/measurement prefix — a token
already produced by the pipeline is reproduced verbatim provided neither
quantity-stripping pass fires on it.  (Stripping a parenthetical note can
expose a quantity prefix, so the proviso is necessary — see the
counterexample.) -/
theorem extract_ingredients_fixed (s t : Str) (h : t ∈ extract_ingredients s)
    (h1 : subAnchored qty1RE t = t) (h2 : subAnchored qty2RE t = t) :
    extract_ingredients t = [t] := by
  have hne := extract_token_ne_nil s t h
  have hstrip := extract_token_stripped s t h
  have hlow := extract_token_lower s t h
  have hnp := extract_token_no_paren s t h
  have hnd := extract_token_no_delim s t h
  unfold extract_ingredients
  rw [if_neg hne]
  rw [splitOnPred_all_false isDelim t hnd]
  rw [List.flatMap_cons, List.flatMap_nil, List.append_nil]
  show (if pyStrip t = [] then []
    else
      if pyStrip (removeParens (subAnchored qty2RE (subAnchored qty1RE (pyStrip t)))) = []
      then []
      else [pyLower (pyStrip (removeParens
        (subAnchored qty2RE (subAnchored qty1RE (pyStrip t)))))]) = [t]
  rw [hstrip, if_neg hne, h1, h2]
  rw [show removeParens t = t from removeParens_fix_of_no_pair t hnp]
  rw [hstrip, if_neg hne, hlow]

/-! ## Claim C4 — name lookup: exact match first, then substring fallback -/

theorem filter_head?_eq_find? (p : α → Bool) (l : List α) :
    (l.filter p).head? = l.find? p := by
  induction l with
  | nil => rfl
  | cons c t ih =>
    rw [List.filter_cons]
    by_cases h : p c
    · rw [if_pos h, List.find?_cons_of_pos t h]
      rfl
    · rw [if_neg h, List.find?_cons_of_neg t h]
      exact ih

/-- A pattern free of regex metacharacters compiles to the case-insensitive
literal of its characters. -/
theorem parsePyRegex_literal (p : Str) (h : ∀ c ∈ p, pyRegexMeta c = false) :
    parsePyRegex p = some (litI p) := by
  induction p with
  | nil => rfl
  | cons c t ih =>
    have hc : pyRegexMeta c = false := h c (List.mem_cons_self c t)
    have hdot : ¬ c = '.' := by
      intro hd
      rw [hd] at hc
      simp [pyRegexMeta] at hc
    rw [parsePyRegex, if_neg hdot, hc, if_neg Bool.false_ne_true,
      ih (fun x hx => h x (List.mem_cons_of_mem c hx))]
    rfl

/-- The case-insensitive literal of `w` matches a prefix of `s` exactly when
the lowercased `w` is a prefix of the lowercased `s`. -/
theorem matchRE_litI_ne_nil (w : Str) : ∀ s : Str,
    matchRE (litI w) s ≠ [] ↔ pyLower w <+: pyLower s := by
  induction w with
  | nil =>
    intro s
    constructor
    · intro _
      exact List.nil_prefix
    · intro _
      exact List.cons_ne_nil _ _
  | cons c t ih =>
    intro s
    cases s with
    | nil =>
      constructor
      · intro h
        exact absurd rfl h
      · intro h
        exact absurd (List.prefix_nil.mp h) (List.cons_ne_nil _ _)
    | cons d u =>
      have hstep : matchRE (litI (c :: t)) (d :: u)
          = (matchRE (chI c) (d :: u)).flatMap
              (fun r1 => (matchRE (litI t) r1.1).map
                (fun r2 => (r2.1, r2.2 <|> r1.2))) := rfl
      by_cases hc : lowerChar d = lowerChar c
      · have h1 : matchRE (chI c) (d :: u) = [(u, none)] := by
          simp [chI, matchRE_cls_cons, hc]
        rw [hstep, h1]
        simp only [List.flatMap_cons, List.flatMap_nil, List.append_nil, ne_eq,
          List.map_eq_nil_iff]
        rw [show pyLower (c :: t) = lowerChar c :: pyLower t from rfl,
          show pyLower (d :: u) = lowerChar d :: pyLower u from rfl,
          List.cons_prefix_cons]
        constructor
        · intro h
          exact ⟨hc.symm, (ih u).mp h⟩
        · rintro ⟨-, h2⟩
          exact (ih u).mpr h2
      · have h1 : matchRE (chI c) (d :: u) = [] := by
          simp [chI, matchRE_cls_cons, hc]
        rw [hstep, h1]
        constructor
        · intro h
          exact absurd rfl h
        · intro h
          rw [show pyLower (c :: t) = lowerChar c :: pyLower t from rfl,
            show pyLower (d :: u) = lowerChar d :: pyLower u from rfl,
            List.cons_prefix_cons] at h
          exact absurd h.1.symm hc

/-- `re.search` succeeds exactly when the pattern matches at some suffix of
the subject. -/
theorem searchRE_isSome_iff (e : RE) (s : Str) :
    (searchRE e s).isSome = true ↔ ∃ t, t <:+ s ∧ matchRE e t ≠ [] := by
  induction s with
  | nil =>
    rw [show searchRE e [] = (matchRE e []).head? from rfl, List.head?_isSome]
    constructor
    · intro h
      exact ⟨[], List.suffix_rfl, h⟩
    · rintro ⟨t, ht, hm⟩
      rw [List.suffix_nil.mp ht] at hm
      exact hm
  | cons c t ih =>
    have hstep : searchRE e (c :: t)
        = match (matchRE e (c :: t)).head? with
          | some r => some r
          | none => searchRE e t := rfl
    cases hh : (matchRE e (c :: t)).head? with
    | some r =>
      have hred : searchRE e (c :: t) = some r := by rw [hstep, hh]
      rw [hred]
      constructor
      · intro _
        refine ⟨c :: t, List.suffix_rfl, ?_⟩
        intro hnil
        rw [hnil] at hh
        exact Option.noConfusion hh
      · intro _
        rfl
    | none =>
      have hred : searchRE e (c :: t) = searchRE e t := by rw [hstep, hh]
      rw [hred, ih]
      constructor
      · rintro ⟨u, hu, hm⟩
        exact ⟨u, hu.trans (List.suffix_cons c t), hm⟩
      · rintro ⟨u, hu, hm⟩
        rcases List.suffix_cons_iff.mp hu with h1 | h2
        · rw [h1] at hm
          exact absurd (List.head?_eq_none_iff.mp hh) hm
        · exact ⟨u, h2, hm⟩

/-- Searching for the case-insensitive literal of `w` is exactly the
substring test on the lowercased strings. -/
theorem searchRE_litI_isSome (w s : Str) :
    (searchRE (litI w) s).isSome = strContains (pyLower s) (pyLower w) := by
  rw [Bool.eq_iff_iff]
  show (searchRE (litI w) s).isSome = true ↔ strContains (pyLower s) (pyLower w) = true
  rw [searchRE_isSome_iff, strContains_eq_true_iff]
  constructor
  · rintro ⟨t, hts, hm⟩
    have h1 : pyLower w <+: pyLower t := (matchRE_litI_ne_nil w t).mp hm
    have h2 : pyLower t <:+ pyLower s := hts.map lowerChar
    exact h1.isInfix.trans h2.isInfix
  · rintro ⟨u, v, huv⟩
    refine ⟨s.drop u.length, List.drop_suffix u.length s, ?_⟩
    rw [matchRE_litI_ne_nil]
    have hmap : pyLower (s.drop u.length) = (pyLower s).drop u.length :=
      List.map_drop lowerChar s u.length
    rw [List.append_assoc] at huv
    rw [hmap, ← huv, List.drop_left]
    exact List.prefix_append _ _

/-- C4 (amended): `byName` tries a case-insensitive exact name match first;
when none exists the fallback interprets the lowercased name as a
case-insensitive regular expression (pandas `str.contains` defaults to
`regex=True`), returning the first matching row in corpus order.  For names
whose lowercased form contains no regex metacharacter this coincides with
the case-insensitive substring test, first match in corpus order; and on a
corpus holding "Virgin Mojito" before "Mojito", looking up "mojito" returns
the exact match "Mojito". -/
theorem byName_exact_before_regex :
    (∀ (corpus : List CocktailRecord) (name : Str),
      (∀ c ∈ pyLower name, pyRegexMeta c = false) →
      get_cocktail_by_name corpus name =
        .ok (corpus.find? (fun r => pyLower r.name = pyLower name) <|>
             corpus.find? (fun r => strContains (pyLower r.name) (pyLower name)))) ∧
    get_cocktail_by_name [virginMojitoRec, mojitoRec] (str "mojito")
      = .ok (some mojitoRec) := by
  constructor
  · intro corpus name hmeta
    simp only [get_cocktail_by_name]
    by_cases h : corpus.filter (fun r => pyLower r.name = pyLower name) = []
    · rw [if_neg (not_not_intro h)]
      have hpre : parsePyRegex (pyLower name) = some (litI (pyLower name)) :=
        parsePyRegex_literal (pyLower name) hmeta
      have hexact : corpus.find? (fun r => pyLower r.name = pyLower name) = none := by
        rw [← filter_head?_eq_find?, h]
        rfl
      have hfb : (corpus.filter (fun r =>
          (searchRE (litI (pyLower name)) (pyLower r.name)).isSome)).head?
          = corpus.find? (fun r => strContains (pyLower r.name) (pyLower name)) := by
        rw [List.filter_congr (fun r _ => by
          rw [searchRE_litI_isSome, pyLower_idem, pyLower_idem]),
          filter_head?_eq_find?]
      rw [hpre, hexact]
      exact congrArg Except.ok hfb
    · rw [if_pos h]
      have hfind : corpus.find? (fun r => pyLower r.name = pyLower name)
          = (corpus.filter (fun r => pyLower r.name = pyLower name)).head? :=
        (filter_head?_eq_find? _ _).symm
      cases hh : (corpus.filter (fun r => pyLower r.name = pyLower name)).head? with
      | none =>
        exact absurd (List.head?_eq_none_iff.mp hh) h
      | some r =>
        rw [hfind, hh]
        rfl
  · rfl

/-- Witness for C4 at the Scenario D corpus and a metacharacter-free name. -/
theorem byName_exact_before_regex_witness :
    (∀ c ∈ pyLower (str "mojito"), pyRegexMeta c = false) ∧
    get_cocktail_by_name [virginMojitoRec, mojitoRec] (str "mojito")
      = .ok ([virginMojitoRec, mojitoRec].find?
               (fun r => pyLower r.name = pyLower (str "mojito")) <|>
             [virginMojitoRec, mojitoRec].find?
               (fun r => strContains (pyLower r.name) (pyLower (str "mojito")))) :=
  ⟨by decide,
   byName_exact_before_regex.1 [virginMojitoRec, mojitoRec] (str "mojito") (by decide)⟩

/-- Counterexample to C4 as stated: for the lookup "m.jito" on a corpus with
the single record "Majito" there is no exact match and no substring match
(so under the claimed substring fallback the lookup would return nothing),
yet the code returns the record, because the fallback is a regex search and
`.` matches the `a`. -/
theorem byName_fallback_regex_counterexample :
    [majitoRec].filter (fun r => pyLower r.name = pyLower (str "m.jito")) = [] ∧
    strContains (pyLower majitoRec.name) (pyLower (str "m.jito")) = false ∧
    get_cocktail_by_name [majitoRec] (str "m.jito") = .ok (some majitoRec) := by
  refine ⟨by decide, by decide, rfl⟩

/-! ## Claim C5 — ingredient containment is substring containment -/

/-- C5: a corpus record is returned by `containing(i)` iff some token of its
normalized ingredient-token list contains the lowercased form of `i` as a
substring (infix), not merely as an equal token. -/
theorem containing_iff_substring (corpus : List CocktailRecord) (i : Str)
    (r : CocktailRecord) (hr : r ∈ corpus) :
    r ∈ get_cocktails_containing corpus i ↔
      ∃ tok ∈ r.ingredients_list, pyLower i <:+: tok := by
  unfold get_cocktails_containing
  rw [List.mem_filter]
  constructor
  · rintro ⟨-, hpred⟩
    rw [List.any_eq_true] at hpred
    obtain ⟨tok, htok, hc⟩ := hpred
    exact ⟨tok, htok, (strContains_eq_true_iff tok (pyLower i)).mp hc⟩
  · rintro ⟨tok, htok, hinf⟩
    refine ⟨hr, ?_⟩
    rw [List.any_eq_true]
    exact ⟨tok, htok, (strContains_eq_true_iff tok (pyLower i)).mpr hinf⟩

/-- Witness for C5 on a concrete record: "lemon juice" tokens contain "lemon". -/
theorem containing_iff_substring_witness :
    ginSmash ∈ [ginSmash] ∧
    (ginSmash ∈ get_cocktails_containing [ginSmash] (str "lemon") ↔
      ∃ tok ∈ ginSmash.ingredients_list, pyLower (str "lemon") <:+: tok) :=
  ⟨by decide, containing_iff_substring [ginSmash] (str "lemon") ginSmash (by decide)⟩

/-! ## Claim C6 — the conversation history is bounded by 50, keeping the
most recent entries in order -/

theorem add_history_favorites (m : UserMemory) (role content ts : Str) :
    (add_to_conversation_history m role content ts).favorite_ingredients
      = m.favorite_ingredients ∧
    (add_to_conversation_history m role content ts).favorite_cocktails
      = m.favorite_cocktails := ⟨rfl, rfl⟩

theorem add_history_eq_lastN (m : UserMemory) (r c ts : Str)
    (h : m.conversation_history.length ≤ 50) :
    (add_to_conversation_history m r c ts).conversation_history
      = lastN 50 (m.conversation_history ++ [(⟨r, c, ts⟩ : ConvEntry)]) := by
  unfold add_to_conversation_history lastN
  show (if 50 < (m.conversation_history ++ [(⟨r, c, ts⟩ : ConvEntry)]).length
      then (m.conversation_history ++ [(⟨r, c, ts⟩ : ConvEntry)]).drop
        ((m.conversation_history ++ [(⟨r, c, ts⟩ : ConvEntry)]).length - 50)
      else m.conversation_history ++ [(⟨r, c, ts⟩ : ConvEntry)]) = _
  by_cases hlen : 50 < (m.conversation_history ++ [(⟨r, c, ts⟩ : ConvEntry)]).length
  · rw [if_pos hlen]
  · rw [if_neg hlen]
    simp only [List.length_append, List.length_cons, List.length_nil] at hlen ⊢
    rw [show m.conversation_history.length + 1 - 50 = 0 from by omega, List.drop_zero]

theorem lastN_length_le (n : Nat) (l : List α) : (lastN n l).length ≤ n := by
  unfold lastN
  rw [List.length_drop]
  omega

theorem lastN_absorb (n : Nat) (a b : List α) :
    lastN n (lastN n a ++ b) = lastN n (a ++ b) := by
  unfold lastN
  by_cases hn : n ≤ a.length
  · rw [List.drop_append_eq_append_drop, List.drop_append_eq_append_drop]
    rw [List.drop_drop]
    simp only [List.length_append, List.length_drop]
    congr 1
    · congr 1
      omega
    · congr 1
      omega
  · rw [show a.length - n = 0 from by omega, List.drop_zero]

/-- C6: starting from a fresh profile, after any finite sequence of appends
the history length never exceeds 50 and the retained entries are exactly the
most recently appended ones, in their original append order. -/
theorem conversation_history_bound (msgs : List (Str × Str × Str)) :
    (run_history msgs).conversation_history.length ≤ 50 ∧
    (run_history msgs).conversation_history = lastN 50 (msgs.map toConvEntry) := by
  have main : ∀ (msgs : List (Str × Str × Str)) (m : UserMemory),
      m.conversation_history.length ≤ 50 →
      (msgs.foldl (fun m e => add_to_conversation_history m e.1 e.2.1 e.2.2)
        m).conversation_history
        = lastN 50 (m.conversation_history ++ msgs.map toConvEntry) := by
    intro msgs
    induction msgs with
    | nil =>
      intro m hm
      rw [List.foldl_nil, List.map_nil, List.append_nil]
      unfold lastN
      rw [show m.conversation_history.length - 50 = 0 from by omega, List.drop_zero]
    | cons e rest ih =>
      intro m hm
      rw [List.foldl_cons]
      have hstep := add_history_eq_lastN m e.1 e.2.1 e.2.2 hm
      have hsteplen : (add_to_conversation_history m e.1 e.2.1 e.2.2).conversation_history.length ≤ 50 := by
        rw [hstep]
        exact lastN_length_le _ _
      rw [ih _ hsteplen, hstep, lastN_absorb]
      rw [List.map_cons, List.append_assoc]
      rfl
  have h2 := main msgs emptyMemory (by simp [emptyMemory])
  unfold run_history
  constructor
  · rw [h2]
    exact lastN_length_le _ _
  · rw [h2]
    rfl

/-! ## Claim C7 — favorite-set idempotence under normalization -/

/-- The ingredient loop of `process_user_message` adds nothing when every
detected ingredient is already a favorite. -/
theorem ing_fold_all_mem (m : UserMemory) (l : List Str)
    (h : ∀ i ∈ l, i ∈ m.favorite_ingredients) :
    l.foldl (fun (acc : List Str × UserMemory) ingredient =>
      if ingredient ∈ acc.2.favorite_ingredients then acc
      else (acc.1 ++ [ingredient], add_favorite_ingredient acc.2 ingredient))
      ([], m) = ([], m) := by
  induction l with
  | nil => rfl
  | cons i rest ih =>
    rw [List.foldl_cons]
    rw [if_pos (h i (List.mem_cons_self i rest))]
    exact ih (fun j hj => h j (List.mem_cons_of_mem i hj))

/-- The cocktail loop never touches the favorite-ingredient set. -/
theorem cock_fold_preserves_ings (l : List Str) (acc : List Str × UserMemory) :
    (l.foldl (fun (acc : List Str × UserMemory) cocktail =>
      if cocktail ∈ acc.2.favorite_cocktails then acc
      else (acc.1 ++ [cocktail], add_favorite_cocktail acc.2 cocktail)) acc).2.favorite_ingredients
      = acc.2.favorite_ingredients := by
  induction l generalizing acc with
  | nil => rfl
  | cons c rest ih =>
    rw [List.foldl_cons]
    by_cases h : c ∈ acc.2.favorite_cocktails
    · rw [if_pos h]
      exact ih acc
    · rw [if_neg h]
      rw [ih _]
      rfl

/-- The ingredient loop never touches the favorite-cocktail set. -/
theorem ing_fold_preserves_cocks (l : List Str) (acc : List Str × UserMemory) :
    (l.foldl (fun (acc : List Str × UserMemory) ingredient =>
      if ingredient ∈ acc.2.favorite_ingredients then acc
      else (acc.1 ++ [ingredient], add_favorite_ingredient acc.2 ingredient)) acc).2.favorite_cocktails
      = acc.2.favorite_cocktails := by
  induction l generalizing acc with
  | nil => rfl
  | cons c rest ih =>
    rw [List.foldl_cons]
    by_cases h : c ∈ acc.2.favorite_ingredients
    · rw [if_pos h]
      exact ih acc
    · rw [if_neg h]
      rw [ih _]
      rfl

/-- C7 (amended): processing a message whose detected ingredients are all
already favorites reports zero newly-added ingredients and leaves the
favorite-ingredient set unchanged; adding then removing an ingredient that
was **not** already a favorite restores the prior set exactly; and
`add_favorite_ingredient "Gin "` then `add_favorite_ingredient "gin"` leaves
the favorite-ingredient set containing exactly the single entry "gin".
(Adding then removing an **already-favorite** item does not restore the set —
see the counterexample.) -/
theorem favorites_idempotent :
    (∀ (m : UserMemory) (msg now : Str),
      (∀ i ∈ detect_favorite_ingredients msg, i ∈ m.favorite_ingredients) →
      (process_user_message m msg now).1.new_favorite_ingredients = [] ∧
      (process_user_message m msg now).2.favorite_ingredients = m.favorite_ingredients) ∧
    (∀ (m : UserMemory) (i : Str), pyStrip (pyLower i) ∉ m.favorite_ingredients →
      ((remove_favorite_ingredient (add_favorite_ingredient m i) i).1).favorite_ingredients
        = m.favorite_ingredients) ∧
    (add_favorite_ingredient (add_favorite_ingredient emptyMemory (str "Gin "))
      (str "gin")).favorite_ingredients = [str "gin"] := by
  refine ⟨?_, ?_, by decide⟩
  · intro m msg now h
    simp only [process_user_message]
    rw [ing_fold_all_mem m _ h]
    exact ⟨rfl, cock_fold_preserves_ings _ _⟩
  · intro m i hnot
    simp only [add_favorite_ingredient, remove_favorite_ingredient, pySetAdd]
    rw [if_neg hnot]
    rw [if_pos (show pyStrip (pyLower i) ∈ m.favorite_ingredients ++ [pyStrip (pyLower i)] by
      simp)]
    simp only
    rw [List.erase_append_right _ (by
      intro hmem
      exact hnot (by simpa using hmem))]
    simp

/-- Witness for C7: a profile already holding "gin", the message
"I love gin.", and the fresh-profile add of an absent ingredient. -/
theorem favorites_idempotent_witness :
    ((∀ i ∈ detect_favorite_ingredients (str "I love gin."),
        i ∈ ginMemory.favorite_ingredients) ∧
      (process_user_message ginMemory (str "I love gin.") (str "t0")).1.new_favorite_ingredients
        = [] ∧
      (process_user_message ginMemory (str "I love gin.") (str "t0")).2.favorite_ingredients
        = ginMemory.favorite_ingredients) ∧
    (pyStrip (pyLower (str "Tonic")) ∉ emptyMemory.favorite_ingredients ∧
      ((remove_favorite_ingredient (add_favorite_ingredient emptyMemory (str "Tonic"))
        (str "Tonic")).1).favorite_ingredients = emptyMemory.favorite_ingredients) :=
  ⟨⟨by decide, favorites_idempotent.1 ginMemory (str "I love gin.") (str "t0") (by decide)⟩,
   ⟨by decide, favorites_idempotent.2.1 emptyMemory (str "Tonic") (by decide)⟩⟩

/-- Counterexample to C7 as stated: when the item is **already** a favorite,
adding (a no-op) and then removing it deletes it, so the prior set is not
restored. -/
theorem favorites_add_remove_counterexample :
    ((remove_favorite_ingredient (add_favorite_ingredient ginMemory (str "gin"))
      (str "gin")).1).favorite_ingredients ≠ ginMemory.favorite_ingredients := by
  decide

/-! ## Claim C8 — similarity scores: 1/(1+d), in (0,1], antitone, ordered,
out-of-range indices skipped -/

theorem simScore_pos (d : ℚ) (h : 0 ≤ d) : 0 < simScore d := by
  unfold simScore
  exact div_pos one_pos (by linarith)

theorem simScore_le_one (d : ℚ) (h : 0 ≤ d) : simScore d ≤ 1 := by
  unfold simScore
  rw [div_le_one (by linarith)]
  linarith

theorem simScore_anti (d1 d2 : ℚ) (h1 : 0 ≤ d1) (hle : d1 ≤ d2) :
    simScore d2 ≤ simScore d1 := by
  unfold simScore
  rw [div_le_div_iff₀ (by linarith) (by linarith)]
  linarith

theorem simScore_strict_anti (d1 d2 : ℚ) (h1 : 0 ≤ d1) (hlt : d1 < d2) :
    simScore d2 < simScore d1 := by
  unfold simScore
  rw [div_lt_div_iff₀ (by linarith) (by linarith)]
  linarith

theorem get?_isSome_iff {α : Type} (l : List α) (n : Nat) :
    (l.get? n).isSome = true ↔ n < l.length := by
  rw [List.get?_eq_getElem?]
  constructor
  · intro h
    by_contra hge
    rw [List.getElem?_eq_none (by omega)] at h
    cases h
  · intro h
    rcases hh : l[n]? with _ | v
    · rw [List.getElem?_eq_none_iff] at hh
      omega
    · rfl

theorem length_filterMap_eq_length_filter {α β : Type} (f : α → Option β) (l : List α) :
    (l.filterMap f).length = (l.filter (fun a => (f a).isSome)).length := by
  induction l with
  | nil => rfl
  | cons a t ih =>
    rw [List.filterMap_cons, List.filter_cons]
    cases hf : f a with
    | none => simpa using ih
    | some b => simpa using ih

/-- C8: given the index collaborator's contract — hits listed by ascending,
non-negative distance — every returned score is `1/(1+d)`, lies in `(0,1]`,
is strictly decreasing in the distance, the returned results are ordered by
non-increasing score, and hits whose index is at or beyond the metadata
list's length are skipped rather than returned. -/
theorem search_cocktails_scores {α : Type} (cocktail_data : List α)
    (hits : List (ℚ × Nat))
    (hsorted : List.Pairwise (fun a b => a.1 ≤ b.1) hits)
    (hnonneg : ∀ h ∈ hits, 0 ≤ h.1) :
    (∀ p ∈ search_cocktails_hits cocktail_data hits, 0 < p.2 ∧ p.2 ≤ 1) ∧
    List.Pairwise (fun x y => y.2 ≤ x.2) (search_cocktails_hits cocktail_data hits) ∧
    (∀ d1 d2 : ℚ, 0 ≤ d1 → d1 < d2 → simScore d2 < simScore d1) ∧
    (search_cocktails_hits cocktail_data hits).length
      = (hits.filter (fun h => h.2 < cocktail_data.length)).length ∧
    (∀ p ∈ search_cocktails_hits cocktail_data hits,
      ∃ h ∈ hits, h.2 < cocktail_data.length ∧ p.2 = simScore h.1) := by
  refine ⟨?_, ?_, ?_, ?_, ?_⟩
  · intro p hp
    unfold search_cocktails_hits at hp
    rw [List.mem_filterMap] at hp
    obtain ⟨h, hh, hfh⟩ := hp
    rcases hg : cocktail_data.get? h.2 with _ | m
    · rw [hg] at hfh
      cases hfh
    · rw [hg] at hfh
      rw [Option.map_some'] at hfh
      cases hfh
      exact ⟨simScore_pos h.1 (hnonneg h hh), simScore_le_one h.1 (hnonneg h hh)⟩
  · unfold search_cocktails_hits
    have hstrong : List.Pairwise (fun a b : ℚ × Nat => 0 ≤ a.1 ∧ a.1 ≤ b.1) hits := by
      apply List.Pairwise.imp_of_mem ?_ hsorted
      intro a b ha hb hle
      exact ⟨hnonneg a ha, hle⟩
    apply List.Pairwise.filterMap _ ?_ hstrong
    intro a b hr x hx y hy
    rcases hga : cocktail_data.get? a.2 with _ | ma <;> rw [hga] at hx
    · cases hx
    · rcases hgb : cocktail_data.get? b.2 with _ | mb <;> rw [hgb] at hy
      · cases hy
      · rw [Option.map_some'] at hx hy
        rw [Option.mem_def, Option.some_inj] at hx hy
        rw [← hx, ← hy]
        exact simScore_anti a.1 b.1 hr.1 hr.2
  · exact fun d1 d2 h1 h2 => simScore_strict_anti d1 d2 h1 h2
  · unfold search_cocktails_hits
    rw [length_filterMap_eq_length_filter]
    congr 1
    apply List.filter_congr
    intro h _
    rw [Option.isSome_map']
    exact Bool.eq_iff_iff.mpr (by
      rw [get?_isSome_iff]
      simp)
  · intro p hp
    unfold search_cocktails_hits at hp
    rw [List.mem_filterMap] at hp
    obtain ⟨h, hh, hfh⟩ := hp
    rcases hg : cocktail_data.get? h.2 with _ | m
    · rw [hg] at hfh
      cases hfh
    · rw [hg] at hfh
      rw [Option.map_some'] at hfh
      cases hfh
      refine ⟨h, hh, ?_, rfl⟩
      rw [← get?_isSome_iff, hg]
      rfl

/-- Witness for C8 on concrete metadata and hits (one hit out of range). -/
theorem search_cocktails_scores_witness :
    (List.Pairwise (fun a b : ℚ × Nat => a.1 ≤ b.1) [((0 : ℚ), 0), (1, 2), (3, 7)] ∧
     ∀ h ∈ [((0 : ℚ), 0), (1, 2), (3, 7)], 0 ≤ h.1) ∧
    ((∀ p ∈ search_cocktails_hits ["a", "b", "c"] [((0 : ℚ), 0), (1, 2), (3, 7)],
        0 < p.2 ∧ p.2 ≤ 1) ∧
     List.Pairwise (fun x y => y.2 ≤ x.2)
       (search_cocktails_hits ["a", "b", "c"] [((0 : ℚ), 0), (1, 2), (3, 7)]) ∧
     (∀ d1 d2 : ℚ, 0 ≤ d1 → d1 < d2 → simScore d2 < simScore d1) ∧
     (search_cocktails_hits ["a", "b", "c"] [((0 : ℚ), 0), (1, 2), (3, 7)]).length
       = ([((0 : ℚ), 0), (1, 2), (3, 7)].filter
           (fun h => h.2 < (["a", "b", "c"] : List String).length)).length ∧
     (∀ p ∈ search_cocktails_hits ["a", "b", "c"] [((0 : ℚ), 0), (1, 2), (3, 7)],
        ∃ h ∈ [((0 : ℚ), 0), (1, 2), (3, 7)],
          h.2 < (["a", "b", "c"] : List String).length ∧ p.2 = simScore h.1)) :=
  ⟨⟨by decide, by decide⟩,
   search_cocktails_scores ["a", "b", "c"] [((0 : ℚ), 0), (1, 2), (3, 7)]
     (by decide) (by decide)⟩

/-! ## Claim C1 — multi-ingredient queries and the inner merge -/

/-- C1 (code bug): the claimed intersection — documented by the code's own
comment "Find intersection of matching cocktails if multiple ingredients" —
is never computed.  On Scenario A's query "cocktails with lemon and mint"
over a corpus whose record "Gin Smash" contains both lemon and mint, the
intent is `ingredient_query`, the extracted entities are ["lemon", "mint"],
the record lies in both per-ingredient `containing` sets (so the claim
demands it in the result), but the branch's `result_df.merge(df,
how="inner")` joins on every common column including the list-valued
`ingredients_list` and raises `TypeError: unhashable type: 'list'`
(`ingredient_query_results_pd` returns the error), so the request fails with
a 500 instead of producing the intersection. -/
theorem ingredient_query_merge_raises :
    identify_query_type (str "cocktails with lemon and mint") = "ingredient_query" ∧
    extract_ingredients_from_query (str "cocktails with lemon and mint")
      = [str "lemon", str "mint"] ∧
    ginSmash ∈ get_cocktails_containing [ginSmash] (str "lemon") ∧
    ginSmash ∈ get_cocktails_containing [ginSmash] (str "mint") ∧
    ingredient_query_results_pd [ginSmash] (str "cocktails with lemon and mint")
      = some (.error ()) := by
  refine ⟨by decide, by decide, by decide, by decide, rfl⟩

/-! ## Claim C3 — the intent classifier is total, deterministic,
case-insensitive, and decides by the first matching rule group in priority
order -/

/-- C3: the classifier always returns one of the five intents; it is
case-insensitive (classifying the lowercased query gives the same intent, and
being a pure function it is deterministic — equal inputs give equal outputs);
and its value is decided by the first pattern group, in the priority order
ingredient → cocktail → recommendation → preference, that matches the
lowercased query, with `general` when none matches. -/
theorem identify_query_type_spec (q : Str) :
    (identify_query_type q = "ingredient_query" ∨
     identify_query_type q = "cocktail_query" ∨
     identify_query_type q = "recommendation" ∨
     identify_query_type q = "preference" ∨
     identify_query_type q = "general") ∧
    identify_query_type q = identify_query_type (pyLower q) ∧
    identify_query_type q =
      (if matchesAny ingredient_patterns (pyLower q) then "ingredient_query"
       else if matchesAny cocktail_patterns (pyLower q) then "cocktail_query"
       else if matchesAny recommendation_patterns (pyLower q) then "recommendation"
       else if matchesAny preference_patterns (pyLower q) then "preference"
       else "general") := by
  have hchar : ∀ s : Str, identify_query_type s =
      (if matchesAny ingredient_patterns (pyLower s) then "ingredient_query"
       else if matchesAny cocktail_patterns (pyLower s) then "cocktail_query"
       else if matchesAny recommendation_patterns (pyLower s) then "recommendation"
       else if matchesAny preference_patterns (pyLower s) then "preference"
       else "general") := fun s => rfl
  refine ⟨?_, ?_, hchar q⟩
  · rw [hchar q]
    split_ifs <;> simp
  · rw [hchar q, hchar (pyLower q), pyLower_idem]

/-! ## Claim C2 — the preference branch never reports just-detected
preferences: re-detection after step (1) finds nothing new, so the branch
falls through to the general path -/

/-- C2 (code evaluation at the failing input): for the message
"My favorite ingredient is gin." on a fresh profile, step (1) detects the new
favorite ingredient "gin" and the intent is `preference` with no
recall phrase — yet `generate_response` returns exactly the general-path
result computed after a second (vacuous) preference-processing pass, because
`process_preference_query` re-runs `process_user_message` after step (1) has
already persisted the detection, so its "report updated preferences" branch
cannot fire.  The spec instead requires the response to report "gin" as an
updated preference. -/
theorem preference_branch_falls_to_general (env : Env) :
    (process_user_message emptyMemory (str "My favorite ingredient is gin.")
      env.now).1.new_favorite_ingredients = [str "gin"] ∧
    identify_query_type (str "My favorite ingredient is gin.") = "preference" ∧
    strContains (pyLower (str "My favorite ingredient is gin.")) (str "what are my")
      = false ∧
    strContains (pyLower (str "My favorite ingredient is gin.")) (str "tell me my")
      = false ∧
    generate_response env emptyMemory (str "My favorite ingredient is gin.")
      = process_general_query env
          (process_user_message
            (process_user_message emptyMemory (str "My favorite ingredient is gin.")
              env.now).2
            (str "My favorite ingredient is gin.") env.now).2
          (str "My favorite ingredient is gin.") :=
  ⟨rfl, by decide, by decide, by decide, rfl⟩

/-! ## Claim C10 — the chat response reports every detected preference that
is a favorite after processing, including ones that were favorites before -/

theorem mem_pySetAdd (s : List Str) (x y : Str) (h : y ∈ s) : y ∈ pySetAdd s x := by
  unfold pySetAdd
  split
  · exact h
  · exact List.mem_append_left _ h

theorem ing_fold_mono (l : List Str) (acc : List Str × UserMemory) (x : Str)
    (h : x ∈ acc.2.favorite_ingredients) :
    x ∈ (l.foldl (fun (acc : List Str × UserMemory) ingredient =>
      if ingredient ∈ acc.2.favorite_ingredients then acc
      else (acc.1 ++ [ingredient], add_favorite_ingredient acc.2 ingredient))
      acc).2.favorite_ingredients := by
  induction l generalizing acc with
  | nil => exact h
  | cons i rest ih =>
    rw [List.foldl_cons]
    by_cases hmem : i ∈ acc.2.favorite_ingredients
    · rw [if_pos hmem]
      exact ih acc h
    · rw [if_neg hmem]
      exact ih _ (mem_pySetAdd _ _ _ h)

theorem cock_fold_mono (l : List Str) (acc : List Str × UserMemory) (x : Str)
    (h : x ∈ acc.2.favorite_cocktails) :
    x ∈ (l.foldl (fun (acc : List Str × UserMemory) cocktail =>
      if cocktail ∈ acc.2.favorite_cocktails then acc
      else (acc.1 ++ [cocktail], add_favorite_cocktail acc.2 cocktail))
      acc).2.favorite_cocktails := by
  induction l generalizing acc with
  | nil => exact h
  | cons c rest ih =>
    rw [List.foldl_cons]
    by_cases hmem : c ∈ acc.2.favorite_cocktails
    · rw [if_pos hmem]
      exact ih acc h
    · rw [if_neg hmem]
      exact ih _ (mem_pySetAdd _ _ _ h)

/-- `process_user_message` never removes a favorite. -/
theorem pum_favs_mono (m : UserMemory) (msg now : Str) :
    (∀ x ∈ m.favorite_ingredients,
      x ∈ (process_user_message m msg now).2.favorite_ingredients) ∧
    (∀ x ∈ m.favorite_cocktails,
      x ∈ (process_user_message m msg now).2.favorite_cocktails) := by
  constructor
  · intro x hx
    show x ∈ ((detect_favorite_cocktails msg).foldl _
      ([], ((detect_favorite_ingredients msg).foldl _ ([], m)).2)).2.favorite_ingredients
    rw [cock_fold_preserves_ings]
    exact ing_fold_mono _ ([], m) x hx
  · intro x hx
    show x ∈ ((detect_favorite_cocktails msg).foldl _
      ([], ((detect_favorite_ingredients msg).foldl _ ([], m)).2)).2.favorite_cocktails
    apply cock_fold_mono
    show x ∈ ((detect_favorite_ingredients msg).foldl _ ([], m)).2.favorite_cocktails
    rw [ing_fold_preserves_cocks]
    exact hx

/-- The ingredient branch does not change the favorite sets. -/
theorem piq_favs (env : Env) (m : UserMemory) (q : Str) :
    (process_ingredient_query env m q).2.favorite_ingredients = m.favorite_ingredients ∧
    (process_ingredient_query env m q).2.favorite_cocktails = m.favorite_cocktails := by
  simp only [process_ingredient_query]
  split_ifs <;> exact ⟨rfl, rfl⟩

/-- The cocktail branch does not change the favorite sets. -/
theorem pcq_favs (env : Env) (m : UserMemory) (q : Str) :
    (process_cocktail_query env m q).2.favorite_ingredients = m.favorite_ingredients ∧
    (process_cocktail_query env m q).2.favorite_cocktails = m.favorite_cocktails := by
  unfold process_cocktail_query
  rcases extract_cocktail_from_query q with _ | name
  · exact ⟨rfl, rfl⟩
  · simp only
    rcases get_cocktail_by_name_substring env.corpus name with _ | c <;> exact ⟨rfl, rfl⟩

/-- The recommendation branch does not change the favorite sets. -/
theorem prq_favs (env : Env) (m : UserMemory) (q : Str) :
    (process_recommendation_query env m q).2.favorite_ingredients
      = m.favorite_ingredients ∧
    (process_recommendation_query env m q).2.favorite_cocktails
      = m.favorite_cocktails := by
  simp only [process_recommendation_query]
  split_ifs
  · exact ⟨rfl, rfl⟩
  · exact ⟨rfl, rfl⟩
  · rcases extract_cocktail_from_query q with _ | name
    · exact ⟨rfl, rfl⟩
    · simp only
      split_ifs <;> exact ⟨rfl, rfl⟩

/-- The general branch's final favorites are those after preference
processing. -/
theorem pgq_favs (env : Env) (m : UserMemory) (q : Str) :
    (process_general_query env m q).2.favorite_ingredients
      = (process_user_message m q env.now).2.favorite_ingredients ∧
    (process_general_query env m q).2.favorite_cocktails
      = (process_user_message m q env.now).2.favorite_cocktails := ⟨rfl, rfl⟩

/-- The preference branch never removes a favorite. -/
theorem ppq_favs_mono (env : Env) (m : UserMemory) (q : Str) :
    (∀ x ∈ m.favorite_ingredients,
      x ∈ (process_preference_query env m q).2.favorite_ingredients) ∧
    (∀ x ∈ m.favorite_cocktails,
      x ∈ (process_preference_query env m q).2.favorite_cocktails) := by
  simp only [process_preference_query]
  by_cases h1 : (strContains (pyLower q) (str "what are my") ||
      strContains (pyLower q) (str "tell me my")) = true
  · rw [if_pos h1]
    exact ⟨fun x hx => hx, fun x hx => hx⟩
  · rw [if_neg h1]
    by_cases h2 : (process_user_message m q env.now).1.new_favorite_ingredients ≠ [] ∨
        (process_user_message m q env.now).1.new_favorite_cocktails ≠ []
    · rw [if_pos h2]
      exact ⟨fun x hx => (pum_favs_mono m q env.now).1 x hx,
        fun x hx => (pum_favs_mono m q env.now).2 x hx⟩
    · rw [if_neg h2]
      constructor
      · intro x hx
        rw [(pgq_favs env _ q).1]
        exact (pum_favs_mono _ q env.now).1 x ((pum_favs_mono m q env.now).1 x hx)
      · intro x hx
        rw [(pgq_favs env _ q).2]
        exact (pum_favs_mono _ q env.now).2 x ((pum_favs_mono m q env.now).2 x hx)

/-- `generate_response` never removes a favorite. -/
theorem generate_response_favs_mono (env : Env) (m : UserMemory) (q : Str) :
    (∀ x ∈ m.favorite_ingredients,
      x ∈ (generate_response env m q).2.favorite_ingredients) ∧
    (∀ x ∈ m.favorite_cocktails,
      x ∈ (generate_response env m q).2.favorite_cocktails) := by
  simp only [generate_response]
  split_ifs
  · constructor
    · intro x hx
      rw [(piq_favs env _ q).1]
      exact (pum_favs_mono m q env.now).1 x hx
    · intro x hx
      rw [(piq_favs env _ q).2]
      exact (pum_favs_mono m q env.now).2 x hx
  · constructor
    · intro x hx
      rw [(pcq_favs env _ q).1]
      exact (pum_favs_mono m q env.now).1 x hx
    · intro x hx
      rw [(pcq_favs env _ q).2]
      exact (pum_favs_mono m q env.now).2 x hx
  · constructor
    · intro x hx
      rw [(prq_favs env _ q).1]
      exact (pum_favs_mono m q env.now).1 x hx
    · intro x hx
      rw [(prq_favs env _ q).2]
      exact (pum_favs_mono m q env.now).2 x hx
  · constructor
    · intro x hx
      exact (ppq_favs_mono env _ q).1 x ((pum_favs_mono m q env.now).1 x hx)
    · intro x hx
      exact (ppq_favs_mono env _ q).2 x ((pum_favs_mono m q env.now).2 x hx)
  · constructor
    · intro x hx
      rw [(pgq_favs env _ q).1]
      exact (pum_favs_mono _ q env.now).1 x ((pum_favs_mono m q env.now).1 x hx)
    · intro x hx
      rw [(pgq_favs env _ q).2]
      exact (pum_favs_mono _ q env.now).2 x ((pum_favs_mono m q env.now).2 x hx)

/-- Every ingredient the detector reports is already normalized
(lowercased and stripped). -/
theorem detect_ing_normalized (msg : Str) (i : Str)
    (h : i ∈ detect_favorite_ingredients msg) : pyStrip (pyLower i) = i := by
  unfold detect_favorite_ingredients at h
  rw [List.mem_flatMap] at h
  obtain ⟨m0, _, hm⟩ := h
  rw [List.mem_filterMap] at hm
  obtain ⟨x, _, hx⟩ := hm
  split at hx
  · cases hx
  · rw [Option.some_inj] at hx
    rw [← hx, pyLower_idem, pyStrip_pyLower, pyStrip_idem]

/-- Every cocktail the detector reports is already stripped. -/
theorem detect_cock_normalized (msg : Str) (c : Str)
    (h : c ∈ detect_favorite_cocktails msg) : pyStrip c = c := by
  unfold detect_favorite_cocktails at h
  rw [List.mem_flatMap] at h
  obtain ⟨m0, _, hm⟩ := h
  rw [List.mem_filterMap] at hm
  obtain ⟨x, _, hx⟩ := hm
  split at hx
  · cases hx
  · rw [Option.some_inj] at hx
    rw [← hx, pyStrip_idem]

/-- C10: the chat endpoint's `detected_preferences` contains every preference
phrase detected in the message whose normalized form is in the corresponding
favorite set after processing — in particular every detected phrase that was
already a favorite before the request, not only the newly-added ones. -/
theorem chat_detected_preferences (env : Env) (m0 : UserMemory) (message : Str) :
    (∀ i ∈ detect_favorite_ingredients message,
      pyStrip (pyLower i) ∈ (chat env m0 message).2.favorite_ingredients →
      i ∈ (chat env m0 message).1.detected_ingredients) ∧
    (∀ i ∈ detect_favorite_ingredients message,
      i ∈ m0.favorite_ingredients →
      i ∈ (chat env m0 message).1.detected_ingredients) ∧
    (∀ c ∈ detect_favorite_cocktails message,
      pyStrip c ∈ (chat env m0 message).2.favorite_cocktails →
      c ∈ (chat env m0 message).1.detected_cocktails) ∧
    (∀ c ∈ detect_favorite_cocktails message,
      c ∈ m0.favorite_cocktails →
      c ∈ (chat env m0 message).1.detected_cocktails) := by
  refine ⟨?_, ?_, ?_, ?_⟩
  · intro i hi hfav
    rw [detect_ing_normalized message i hi] at hfav
    show i ∈ (detect_favorite_ingredients message).filter
      (fun x => x ∈ (generate_response env m0 message).2.favorite_ingredients)
    rw [List.mem_filter]
    exact ⟨hi, by simpa using hfav⟩
  · intro i hi hfav
    show i ∈ (detect_favorite_ingredients message).filter
      (fun x => x ∈ (generate_response env m0 message).2.favorite_ingredients)
    rw [List.mem_filter]
    refine ⟨hi, ?_⟩
    have := (generate_response_favs_mono env m0 message).1 i hfav
    simpa using this
  · intro c hc hfav
    rw [detect_cock_normalized message c hc] at hfav
    show c ∈ (detect_favorite_cocktails message).filter
      (fun x => x ∈ (generate_response env m0 message).2.favorite_cocktails)
    rw [List.mem_filter]
    exact ⟨hc, by simpa using hfav⟩
  · intro c hc hfav
    show c ∈ (detect_favorite_cocktails message).filter
      (fun x => x ∈ (generate_response env m0 message).2.favorite_cocktails)
    rw [List.mem_filter]
    refine ⟨hc, ?_⟩
    have := (generate_response_favs_mono env m0 message).2 c hfav
    simpa using this

/-- Witness for C10: a user who already favors "gin" says "I love gin." —
the reply's detected-preference lists report it even though nothing new was
added. -/
theorem chat_detected_preferences_witness :
    (str "gin" ∈ detect_favorite_ingredients (str "I love gin.") ∧
     str "gin" ∈ ginMemory.favorite_ingredients) ∧
    str "gin" ∈ (chat trivialEnv ginMemory (str "I love gin.")).1.detected_ingredients :=
  ⟨⟨by decide, by decide⟩,
   (chat_detected_preferences trivialEnv ginMemory (str "I love gin.")).2.1
     (str "gin") (by decide) (by decide)⟩

/-! ## Claim C9 — witness and counterexample -/

/-- Witness for C9: "gin" is a pipeline output, neither quantity pass fires
on it, and re-normalizing it reproduces it. -/
theorem extract_ingredients_fixed_witness :
    (str "gin" ∈ extract_ingredients (str "gin") ∧
     subAnchored qty1RE (str "gin") = str "gin" ∧
     subAnchored qty2RE (str "gin") = str "gin") ∧
    extract_ingredients (str "gin") = [str "gin"] :=
  ⟨⟨by decide, by decide, by decide⟩,
   extract_ingredients_fixed (str "gin") (str "gin") (by decide) (by decide) (by decide)⟩

/-- Counterexample to C9 as stated: "7 oz gin" is itself a pipeline output
(from the raw text "(note) 7 oz gin", where the parenthetical is stripped
only after the quantity passes ran), yet re-normalizing it strips the
now-exposed quantity prefix and yields ["gin"], not ["7 oz gin"]. -/
theorem extract_ingredients_not_idempotent :
    str "7 oz gin" ∈ extract_ingredients (str "(note) 7 oz gin") ∧
    extract_ingredients (str "7 oz gin") ≠ [str "7 oz gin"] := by
  refine ⟨by decide, by decide⟩

end Cocktail
